import Mathlib

/-!
Verification development for the spot/perpetual arbitrage market-making
engine (files arbitrage_bot.py and fill_handler.py).  Python floats are
embedded as exact rationals; the 1e-12 tolerance used throughout the source
is the literal rational 1/10^12.  Dictionaries are embedded as association
lists, Python int() truncation as pyInt, and the venue adapter as explicit
environments (per-attempt hedge outcomes, per-level cancel results).
-/

set_option autoImplicit false
set_option maxHeartbeats 1000000

namespace ArbBot

/-- The float tolerance 1e-12 used by the source for all comparisons. -/
def eps : ℚ := 1 / 10 ^ 12

/-- Python int() applied to a rational: truncation toward zero. -/
def pyInt (q : ℚ) : ℤ :=
  if q < 0 then ⌈q⌉ else ⌊q⌋

/-- Embeds the idiom int(q / lot) * lot used for lot flooring. -/
def floorToLot (lot q : ℚ) : ℚ :=
  (pyInt (q / lot) : ℚ) * lot

/-- Association-list lookup (first match), the embedding of Python dict
lookup; keys of embedded dicts are unique, stated as Nodup hypotheses. -/
def alookup {α β : Type} [DecidableEq α] : List (α × β) → α → Option β
  | [], _ => none
  | (k, v) :: rest, a => if k = a then some v else alookup rest a

/-- Association-list insert-or-replace, the embedding of dict assignment. -/
def dictSet {α β : Type} [DecidableEq α] : List (α × β) → α → β → List (α × β)
  | [], k, v => [(k, v)]
  | (k0, v0) :: rest, k, v =>
      if k0 = k then (k, v) :: rest else (k0, v0) :: dictSet rest k v

theorem alookup_mem {α β : Type} [DecidableEq α] {l : List (α × β)} {k : α} {v : β}
    (h : alookup l k = some v) : (k, v) ∈ l := by
  induction l with
  | nil => simp [alookup] at h
  | cons p rest ih =>
    obtain ⟨k0, v0⟩ := p
    by_cases hk : k0 = k
    · subst hk
      simp [alookup] at h
      simp [h]
    · simp [alookup, hk] at h
      exact List.mem_cons_of_mem _ (ih h)

theorem alookup_eq_some_of_mem {α β : Type} [DecidableEq α] {l : List (α × β)}
    {k : α} {v : β} (hnd : (l.map Prod.fst).Nodup) (h : (k, v) ∈ l) :
    alookup l k = some v := by
  induction l with
  | nil => simp at h
  | cons p rest ih =>
    obtain ⟨k0, v0⟩ := p
    simp only [List.map_cons, List.nodup_cons] at hnd
    rcases List.mem_cons.mp h with heq | hmem
    · cases heq
      simp [alookup]
    · have hk : k0 ≠ k := by
        intro hk
        subst hk
        exact hnd.1 (List.mem_map.mpr ⟨(k0, v), hmem, rfl⟩)
      simp [alookup, hk]
      exact ih hnd.2 hmem

theorem alookup_eq_none_iff {α β : Type} [DecidableEq α] {l : List (α × β)} {k : α} :
    alookup l k = none ↔ k ∉ l.map Prod.fst := by
  induction l with
  | nil => simp [alookup]
  | cons p rest ih =>
    obtain ⟨k0, v0⟩ := p
    by_cases hk : k0 = k
    · subst hk
      simp [alookup]
    · simp [alookup, hk, ih, Ne.symm hk]

theorem alookup_dictSet_self {α β : Type} [DecidableEq α] (l : List (α × β)) (k : α) (v : β) :
    alookup (dictSet l k v) k = some v := by
  induction l with
  | nil => simp [dictSet, alookup]
  | cons p rest ih =>
    obtain ⟨k0, v0⟩ := p
    by_cases hk : k0 = k
    · subst hk
      simp [dictSet, alookup]
    · simp [dictSet, hk, alookup, ih]

theorem alookup_dictSet_ne {α β : Type} [DecidableEq α] (l : List (α × β)) (k k1 : α) (v : β)
    (h : k1 ≠ k) : alookup (dictSet l k1 v) k = alookup l k := by
  induction l with
  | nil => simp [dictSet, alookup, h]
  | cons p rest ih =>
    obtain ⟨k0, v0⟩ := p
    by_cases hk : k0 = k1
    · subst hk
      simp [dictSet, alookup, h]
    · by_cases hk2 : k0 = k
      · subst hk2
        simp [dictSet, hk, alookup]
      · simp [dictSet, hk, alookup, hk2, ih]

/-! ## Configuration (arbitrage_bot.StrategyConfig / FeeConfig) -/

/-- StrategyConfig from arbitrage_bot.py (numeric fields; symbols omitted
because the embedding passes no strings to the venue). -/
structure StrategyConfig where
  tick_size_spot : ℚ
  total_budget : ℚ
  budget_pct : ℚ
  depth_ratio : ℚ
  min_order_qty : ℚ
  lot_size : ℚ
  reprice_bps : ℚ
  max_retry : ℕ
deriving DecidableEq

/-- FeeConfig.min_spread: min_spread_bps / 10000. -/
def minSpreadOfBps (min_spread_bps : ℚ) : ℚ := min_spread_bps / 10000

/-- LevelOrder from arbitrage_bot.py. -/
structure LevelOrder where
  level_idx : ℕ
  order_id : String
  price : ℚ
  qty : ℚ
  accounted_qty : ℚ
  hedged_qty : ℚ
deriving DecidableEq

/-- The FillHandler ledger counters (fill_handler.FillHandler attributes). -/
structure Ledger where
  naked_exposure : ℚ
  total_filled_usdt : ℚ
  total_filled_base : ℚ
  total_hedged_base : ℚ
  total_hedged_base_priced : ℚ
  total_hedged_quote : ℚ
deriving DecidableEq

/-! ## Hedger (fill_handler.FillHandler.try_hedge) -/

/-- Outcome of one adapter.place_futures_market_sell call inside the retry
loop: success with the optional last_hedge_avg_price, the -4164
notional-too-small rejection, or any other exception. -/
inductive HedgeAttempt where
  | success (avgPrice : Option ℚ)
  | notionalTooSmall
  | failure
deriving DecidableEq

/-- Result of try_hedge: the returned (ok, hedged) pair, the updated ledger,
and the list of quantities passed to place_futures_market_sell. -/
structure HedgeOutcome where
  ok : Bool
  hedged : ℚ
  ledger : Ledger
  calls : List ℚ
deriving DecidableEq

/-- Ledger commit on a successful hedge (fill_handler.py lines 307-312):
total_hedged_base grows by hedge_qty, the priced totals grow only when the
adapter reported a strictly positive average price, and naked_exposure is
set to the residual. -/
def hedgeCommit (st : Ledger) (hq residual : ℚ) (px : Option ℚ) : Ledger :=
  { st with
    total_hedged_base := st.total_hedged_base + hq
    total_hedged_quote :=
      match px with
      | some p => if 0 < p then st.total_hedged_quote + hq * p else st.total_hedged_quote
      | none => st.total_hedged_quote
    total_hedged_base_priced :=
      match px with
      | some p => if 0 < p then st.total_hedged_base_priced + hq else st.total_hedged_base_priced
      | none => st.total_hedged_base_priced
    naked_exposure := residual }

/-- The retry loop of try_hedge (fill_handler.py lines 301-351), one list
entry per iteration of range(max_retry).  Exhaustion and the -4164
rejection both persist naked_exposure = total_to_hedge and return
(False, 0); a success returns (residual less-or-equal eps, hedge_qty). -/
def tryHedgeLoop (hq residual total : ℚ) (st : Ledger) : List HedgeAttempt → HedgeOutcome
  | [] => ⟨false, 0, { st with naked_exposure := total }, []⟩
  | HedgeAttempt.success px :: _ =>
      ⟨decide (residual ≤ eps), hq, hedgeCommit st hq residual px, [hq]⟩
  | HedgeAttempt.notionalTooSmall :: _ =>
      ⟨false, 0, { st with naked_exposure := total }, [hq]⟩
  | HedgeAttempt.failure :: rest =>
      let r := tryHedgeLoop hq residual total st rest
      { r with calls := hq :: r.calls }

/-- try_hedge from fill_handler.py (lines 279-351).  attempts gives the
outcome of the i-th adapter call. -/
def tryHedge (cfg : StrategyConfig) (st : Ledger) (qty : ℚ) (attempts : ℕ → HedgeAttempt) :
    HedgeOutcome :=
  let lot := cfg.lot_size
  let total := max 0 (qty + st.naked_exposure)
  let hq := floorToLot lot total
  let residual := max 0 (total - hq)
  if qty ≤ 0 ∧ total ≤ 0 then ⟨true, 0, st, []⟩
  else if hq < lot then ⟨true, 0, { st with naked_exposure := total }, []⟩
  else tryHedgeLoop hq residual total st ((List.range cfg.max_retry).map attempts)

/-! ## Level selection (arbitrage_bot.SpotFuturesArbitrageBot._select_all_levels) -/

/-- The fixed ladder weights _LEVEL_WEIGHTS, in dict insertion order. -/
def levelWeights : List (ℕ × ℚ) := [(1, 1 / 5), (2, 3 / 10), (3, 1 / 2)]

/-- min_notional_qty = int(5.5 / bid_price / lot + 1) * lot
(arbitrage_bot.py line 603). -/
def minNotionalQty (price lot : ℚ) : ℚ :=
  (pyInt (11 / 2 / price / lot + 1) : ℚ) * lot

/-- The notional-floor raise (arbitrage_bot.py lines 603-605): if qty is
below min_notional_qty it is replaced by it. -/
def applyNotionalRaise (qty price lot : ℚ) : ℚ :=
  if qty < minNotionalQty price lot then minNotionalQty price lot else qty

/-- cycle_budget = min(total_budget * budget_pct, remaining) where
remaining = max(0, total_budget - total_filled_base). -/
def cycleBudget (cfg : StrategyConfig) (filledBase : ℚ) : ℚ :=
  min (cfg.total_budget * cfg.budget_pct) (max 0 (cfg.total_budget - filledBase))

/-- The per-level quantity pipeline of _select_all_levels: weight share of
the cycle budget, depth clamp, lot floor, then notional raise. -/
def levelFinalQty (cfg : StrategyConfig) (cycle p sz w : ℚ) : ℚ :=
  applyNotionalRaise (floorToLot cfg.lot_size (min (cycle * w) (sz * cfg.depth_ratio)))
    p cfg.lot_size

/-- One iteration of the _select_all_levels loop body for level lv with
weight w; none encodes the return-empty aborts.  Only applied to the
levels 1..3 of levelWeights, for which the source depth test
level_idx greater-than len(spot_bids) is exactly get? (lv - 1) = none. -/
def levelQuote (cfg : StrategyConfig) (minSpread cycle futBid : ℚ)
    (bids : List (ℚ × ℚ)) (lv : ℕ) (w : ℚ) : Option (ℕ × ℚ × ℚ) :=
  match bids.get? (lv - 1) with
  | none => none
  | some (p, sz) =>
    if p ≤ 0 then none
    else if (futBid - p) / p < minSpread then none
    else
      let q := levelFinalQty cfg cycle p sz w
      if q < cfg.min_order_qty then none
      else some (lv, p, q)

/-- The _select_all_levels loop over the weight list: any abort discards
the whole accumulated result. -/
def selectLoop (cfg : StrategyConfig) (minSpread cycle futBid : ℚ)
    (bids : List (ℚ × ℚ)) : List (ℕ × ℚ) → Option (List (ℕ × ℚ × ℚ))
  | [] => some []
  | (lv, w) :: rest =>
    match levelQuote cfg minSpread cycle futBid bids lv w with
    | none => none
    | some q =>
      match selectLoop cfg minSpread cycle futBid bids rest with
      | none => none
      | some qs => some (q :: qs)

/-- _select_all_levels (arbitrage_bot.py lines 554-620). -/
def selectAllLevels (cfg : StrategyConfig) (minSpread filledBase : ℚ)
    (bids : List (ℚ × ℚ)) (futBid : ℚ) : List (ℕ × ℚ × ℚ) :=
  if futBid ≤ 0 then []
  else if max 0 (cfg.total_budget - filledBase) ≤ 0 then []
  else
    (selectLoop cfg minSpread (cycleBudget cfg filledBase) futBid bids levelWeights).getD []

/-! ## Fill accounting (fill_handler.FillHandler) -/

/-- record_spot_fill (fill_handler.py lines 99-112): credits the cumulative
fill to the ledger and the order; increments at most eps are ignored.
Returns (ledger, order, new_fill). -/
def recordSpotFill (st : Ledger) (o : LevelOrder) (cum : ℚ) : Ledger × LevelOrder × ℚ :=
  let nf := cum - o.accounted_qty
  if nf ≤ eps then (st, o, 0)
  else
    ({ st with
        total_filled_base := st.total_filled_base + nf
        total_filled_usdt := st.total_filled_usdt + nf * o.price },
     { o with accounted_qty := cum }, nf)

/-- The hedged-quantity bump shared by both branches of
detect_fills_on_cancel (fill_handler.py lines 126-129 and 135-138):
new_fill = fill - hedged_qty is added to hedged_qty when above eps. -/
def hedgeMark (o : LevelOrder) (f : ℚ) : LevelOrder × ℚ :=
  let nf := f - o.hedged_qty
  if eps < nf then ({ o with hedged_qty := o.hedged_qty + nf }, nf) else (o, 0)

/-- detect_fills_on_cancel (fill_handler.py lines 116-139).  wsFill is the
drained queue entry for this order id (if any); restFill is the value
get_order_filled_qty would return, consulted only when wsFill is absent
and ignored when negative (the order-not-found sentinel).
Returns (ledger, order, unhedged). -/
def detectFillsOnCancel (st : Ledger) (o : LevelOrder) (wsFill : Option ℚ) (restFill : ℚ) :
    Ledger × LevelOrder × ℚ :=
  match wsFill with
  | some f =>
    let r := recordSpotFill st o f
    let h := hedgeMark r.2.1 f
    (r.1, h.1, h.2)
  | none =>
    if 0 ≤ restFill then
      let r := recordSpotFill st o restFill
      let h := hedgeMark r.2.1 restFill
      (r.1, h.1, h.2)
    else (st, o, 0)

/-! ## WS queue drain (fill_handler.FillHandler.drain_fill_queue) -/

/-- One websocket fill event, as consumed from fill_queue. -/
structure FillEvent where
  order_id : String
  filled_qty : ℚ
  last_filled_qty : ℚ
  last_filled_price : ℚ
deriving DecidableEq

/-- The drain loop of drain_fill_queue: events are popped in queue order
and each event of an active order overwrites the dict entry for its id. -/
def drainGo (activeIds : List String) (fills : List (String × ℚ)) :
    List FillEvent → List (String × ℚ)
  | [] => fills
  | e :: rest =>
      drainGo activeIds
        (if e.order_id ∈ activeIds then dictSet fills e.order_id e.filled_qty else fills) rest

/-- drain_fill_queue (fill_handler.py lines 70-95). -/
def drainFillQueue (activeIds : List String) (events : List FillEvent) : List (String × ℚ) :=
  drainGo activeIds [] events

/-- The filled_qty of the last event for a given order id in a list of
events (none when the id never occurs). -/
def lastFillFor (oid : String) : List FillEvent → Option ℚ
  | [] => none
  | e :: rest =>
    match lastFillFor oid rest with
    | some v => some v
    | none => if e.order_id = oid then some e.filled_qty else none

/-- The REST reconciliation sweep of check_fills_and_hedge (fill_handler.py
lines 160-165): for each active order id, a non-negative pull result is
merged with max into order_fills; the negative sentinel is skipped. -/
def collectRestFills (pull : String → ℚ) (ids : List String)
    (fills : List (String × ℚ)) : List (String × ℚ) :=
  ids.foldl
    (fun acc oid =>
      let f := pull oid
      if 0 ≤ f then dictSet acc oid (max ((alookup acc oid).getD 0) f) else acc)
    fills

/-! ## check_fills_and_hedge (fill_handler.py lines 143-261)

order_fills is a dict (unique keys) and _active_orders is a dict keyed by
order_id, so the accumulation loop of lines 180-196 touches each active
order at most once, through the fill entry carrying its id.  The phase-1
functions below realize that loop: the per-order update is the lookup of
the order id in the fills dict, and the ledger / unhedged / fully-filled
aggregates fold over the fills in dict order against the pre-loop orders
(exact, because each order is mutated only while its own entry is
processed). -/

/-- First matching active order for an id (dict lookup into _active_orders). -/
def findOrder (orders : List LevelOrder) (oid : String) : Option LevelOrder :=
  orders.find? (fun o => o.order_id == oid)

/-- The accounted_qty update of lines 185-189 (and of record_spot_fill). -/
def accountUpd (o : LevelOrder) (cum : ℚ) : LevelOrder :=
  if cum - o.accounted_qty ≤ eps then o else { o with accounted_qty := cum }

/-- Orders after the accumulation loop of lines 181-196. -/
def phase1Orders (orders : List LevelOrder) (fills : List (String × ℚ)) : List LevelOrder :=
  orders.map fun o =>
    match alookup fills o.order_id with
    | some cum => accountUpd o cum
    | none => o

/-- Ledger after the accumulation loop of lines 181-196. -/
def phase1Ledger (st : Ledger) (orders : List LevelOrder) (fills : List (String × ℚ)) :
    Ledger :=
  fills.foldl
    (fun acc f =>
      match findOrder orders f.1 with
      | some o =>
        let nf := f.2 - o.accounted_qty
        if eps < nf then
          { acc with
              total_filled_base := acc.total_filled_base + nf
              total_filled_usdt := acc.total_filled_usdt + nf * o.price }
        else acc
      | none => acc)
    st

/-- per_order_unhedged from lines 191-194. -/
def perOrderUnhedged (orders : List LevelOrder) (fills : List (String × ℚ)) :
    List (String × ℚ) :=
  fills.filterMap fun f =>
    match findOrder orders f.1 with
    | some o => if eps < f.2 - o.hedged_qty then some (f.1, f.2 - o.hedged_qty) else none
    | none => none

/-- fully_filled from lines 195-196. -/
def fullyFilled (orders : List LevelOrder) (fills : List (String × ℚ)) : List String :=
  fills.filterMap fun f =>
    match findOrder orders f.1 with
    | some o => if o.qty - eps ≤ f.2 then some f.1 else none
    | none => none

/-- level_idx of the order with a given id, 999 when absent (line 208-213). -/
def levelOf (orders : List LevelOrder) (oid : String) : ℕ :=
  match findOrder orders oid with
  | some o => o.level_idx
  | none => 999

/-- sorted(per_order_unhedged.keys(), key=level) of line 213. -/
def sortIdsByLevel (orders : List LevelOrder) (ids : List String) : List String :=
  ids.mergeSort fun a b => decide (levelOf orders a ≤ levelOf orders b)

/-- The allocation loop of lines 213-222 over (id, unhedged) pairs in
sorted order: stops when remaining_hedge drops to eps, otherwise hands
each order min(unhedged, remaining). -/
def allocParts (rem : ℚ) : List (String × ℚ) → List (String × ℚ)
  | [] => []
  | (oid, u) :: rest =>
    if rem ≤ eps then []
    else (oid, min u rem) :: allocParts (rem - min u rem) rest

/-- Applies the allocated hedge parts to the orders (line 221). -/
def applyAlloc (orders : List LevelOrder) (parts : List (String × ℚ)) : List LevelOrder :=
  orders.map fun o =>
    match alookup parts o.order_id with
    | some part => { o with hedged_qty := o.hedged_qty + part }
    | none => o

/-- The fully-filled cleanup of lines 227-236: the callback removes an
order that was marked fully filled and whose hedged_qty has reached its
qty. -/
def cleanupFull (orders : List LevelOrder) (ff : List String) : List LevelOrder :=
  orders.filter fun o => !(decide (o.order_id ∈ ff) && decide (o.qty - eps ≤ o.hedged_qty))

/-- The 30-second gap check of lines 239-261: a positive gap beyond one lot
is folded into naked_exposure and handed to try_hedge(0); orders are not
touched.  gapDue embeds the timer comparison. -/
def gapCheck (cfg : StrategyConfig) (st : Ledger) (gapDue : Bool)
    (attempts2 : ℕ → HedgeAttempt) : Ledger :=
  if gapDue then
    let gap := st.total_filled_base - st.total_hedged_base - st.naked_exposure
    if cfg.lot_size ≤ gap then
      (tryHedge cfg { st with naked_exposure := st.naked_exposure + gap } 0 attempts2).ledger
    else st
  else st

/-- Result state of check_fills_and_hedge. -/
structure CheckResult where
  ledger : Ledger
  orders : List LevelOrder
deriving DecidableEq

/-- check_fills_and_hedge (fill_handler.py lines 143-261) given the merged
order_fills dict (WS drain plus REST reconciliation), the adapter outcomes
for the batch try_hedge, the gap-check timer state and the adapter
outcomes for its try_hedge(0). -/
def checkFillsAndHedge (cfg : StrategyConfig) (st : Ledger) (orders : List LevelOrder)
    (fills : List (String × ℚ)) (attempts : ℕ → HedgeAttempt) (gapDue : Bool)
    (attempts2 : ℕ → HedgeAttempt) : CheckResult :=
  let st1 := phase1Ledger st orders fills
  let orders1 := phase1Orders orders fills
  let unh := perOrderUnhedged orders fills
  let ff := fullyFilled orders fills
  let totalUnh := (unh.map Prod.snd).sum
  if eps < totalUnh then
    let h := tryHedge cfg st1 totalUnh attempts
    let sortedIds := sortIdsByLevel orders1 (unh.map Prod.fst)
    let pairs := sortedIds.filterMap fun oid => (alookup unh oid).map fun u => (oid, u)
    let parts := allocParts h.hedged pairs
    let orders2 := applyAlloc orders1 parts
    ⟨gapCheck cfg h.ledger gapDue attempts2, cleanupFull orders2 ff⟩
  else
    ⟨gapCheck cfg st1 gapDue attempts2, cleanupFull orders1 ff⟩

/-! ## Order synchronization (arbitrage_bot._sync_orders, _need_reprice_level) -/

/-- _need_reprice_level (arbitrage_bot.py lines 656-672) given the live
order at that level (none when the level or order is missing). -/
def needReprice (cfg : StrategyConfig) (ord? : Option LevelOrder) (newPrice newQty : ℚ) :
    Bool :=
  match ord? with
  | none => true
  | some o =>
    let threshold := max (o.price * (cfg.reprice_bps / 10000)) (cfg.tick_size_spot * 3)
    decide (threshold ≤ |newPrice - o.price| ∨ cfg.lot_size / 2 ≤ |newQty - o.qty|)

/-- Adapter environment for one _sync_orders call: the unhedged quantity
_cancel_level_order discovers at each level, and the attempt outcomes of
the two possible try_hedge calls (step 3, and the cancel-all residual). -/
structure SyncEnv where
  cancelUnhedged : ℕ → ℚ
  attempts1 : ℕ → HedgeAttempt
  attempts2 : ℕ → HedgeAttempt

/-- Observable outcome of _sync_orders: levels cancelled, quotes placed,
the returned flag, and the ledger. -/
structure SyncResult where
  cancelled : List ℕ
  placed : List (ℕ × ℚ × ℚ)
  ok : Bool
  ledger : Ledger
deriving DecidableEq

/-- The levels of to_check that _need_reprice_level marks for re-pricing
(arbitrage_bot.py lines 757-764). -/
def syncRepricedLevels (cfg : StrategyConfig) (current : List (ℕ × LevelOrder))
    (desired : List (ℕ × ℚ × ℚ)) : List ℕ :=
  ((desired.filter fun d => decide (d.1 ∈ current.map Prod.fst)).filter fun d =>
      needReprice cfg (alookup current d.1) d.2.1 d.2.2).map Prod.fst

/-- total_unhedged accumulated by the step-2 cancellations. -/
def syncTotalUnhedged (cfg : StrategyConfig) (current : List (ℕ × LevelOrder))
    (desired : List (ℕ × ℚ × ℚ)) (env : SyncEnv) : ℚ :=
  ((syncRepricedLevels cfg current desired).map env.cancelUnhedged).sum

/-- _sync_orders (arbitrage_bot.py lines 736-787).  current is the
level_to_oid / _active_orders pair (level to live order), desired the
target ladder.  Step 4 ignores the unhedged total returned by its
cancel-all, leaving the ledger unchanged, exactly as line 779 discards the
return value. -/
def syncOrders (cfg : StrategyConfig) (st : Ledger) (current : List (ℕ × LevelOrder))
    (desired : List (ℕ × ℚ × ℚ)) (env : SyncEnv) : SyncResult :=
  let currentLevels := current.map Prod.fst
  let cancelled2 := syncRepricedLevels cfg current desired
  let totalUnhedged := syncTotalUnhedged cfg current desired env
  let currentAfter := currentLevels.filter fun lv => decide (lv ∉ cancelled2)
  let toAdd :=
    ((desired.filter fun d => decide (d.1 ∉ currentLevels)).map Prod.fst) ++ cancelled2
  let finish : Ledger → SyncResult := fun st2 =>
    if cfg.lot_size ≤ st2.naked_exposure then
      ⟨cancelled2 ++ currentAfter, [], false, st2⟩
    else
      let placedLevels := toAdd.dedup.mergeSort fun a b => decide (a ≤ b)
      ⟨cancelled2,
        placedLevels.filterMap fun lv => (alookup (desired.map fun d => (d.1, d.2)) lv).map
          fun pq => (lv, pq),
        true, st2⟩
  if eps < totalUnhedged then
    let h := tryHedge cfg st totalUnhedged env.attempts1
    if h.ok then finish h.ledger
    else
      let remaining := (currentAfter.map env.cancelUnhedged).sum
      let st2 :=
        if eps < remaining then (tryHedge cfg h.ledger remaining env.attempts2).ledger
        else h.ledger
      ⟨cancelled2 ++ currentAfter, [], false, st2⟩
  else finish st

/-! ## Close task residue (arbitrage_bot._run_close_task lines 353-358 and 511-547) -/

/-- The close-task slice of bot state the termination block mutates. -/
structure CloseEndState where
  naked_exposure : ℚ
  close_pending_hedge : ℚ
deriving DecidableEq

/-- The termination block of _run_close_task (arbitrage_bot.py lines
511-528, identically 531-547 on the exception path): close_pending_hedge
is set to max(0, pending) and, when pending is above eps, naked_exposure
additionally grows by pending. -/
def closeTaskEnd (st : CloseEndState) (pending : ℚ) : CloseEndState :=
  { naked_exposure :=
      if eps < pending then st.naked_exposure + pending else st.naked_exposure,
    close_pending_hedge := max 0 pending }

/-- The initial pending_hedge a newly started close task reads from bot
state (arbitrage_bot.py lines 356-357). -/
def closeTaskStartPending (st : CloseEndState) : ℚ :=
  max 0 st.close_pending_hedge

/-! ## Helper lemmas -/

theorem eps_pos : 0 < eps := by norm_num [eps]

theorem floorToLot_le (lot q : ℚ) (hlot : 0 < lot) (hq : 0 ≤ q) : floorToLot lot q ≤ q := by
  unfold floorToLot pyInt
  have h0 : (0 : ℚ) ≤ q / lot := div_nonneg hq hlot.le
  rw [if_neg (not_lt.mpr h0)]
  have h1 : (⌊q / lot⌋ : ℚ) * lot ≤ q / lot * lot :=
    mul_le_mul_of_nonneg_right (Int.floor_le _) hlot.le
  have h2 : q / lot * lot = q := div_mul_cancel₀ q hlot.ne'
  linarith

theorem minNotionalQty_eq (p lot : ℚ) (hp : 0 < p) (hlot : 0 < lot) :
    minNotionalQty p lot = ((⌊11 / 2 / p / lot⌋ : ℚ) + 1) * lot := by
  unfold minNotionalQty pyInt
  have hx : (0 : ℚ) ≤ 11 / 2 / p / lot := by positivity
  rw [if_neg (not_lt.mpr (by linarith : (0 : ℚ) ≤ 11 / 2 / p / lot + 1))]
  rw [Int.floor_add_one]
  push_cast
  ring

theorem notionalRaise_cond_iff (p lot : ℚ) (hp : 0 < p) (hlot : 0 < lot) (k : ℕ) :
    ((k : ℚ) * lot < minNotionalQty p lot) ↔ (k : ℚ) * lot * p ≤ 11 / 2 := by
  rw [minNotionalQty_eq p lot hp hlot, mul_lt_mul_right hlot]
  have hxval : (11 / 2 / p / lot) * (lot * p) = 11 / 2 := by
    field_simp
    ring
  constructor
  · intro h
    have h1 : (k : ℤ) < ⌊11 / 2 / p / lot⌋ + 1 := by exact_mod_cast h
    have h2 : (k : ℤ) ≤ ⌊11 / 2 / p / lot⌋ := by omega
    have h3 : (k : ℚ) ≤ 11 / 2 / p / lot := Int.le_floor.mp h2
    have h4 : (k : ℚ) * (lot * p) ≤ (11 / 2 / p / lot) * (lot * p) :=
      mul_le_mul_of_nonneg_right h3 (by positivity)
    rw [hxval] at h4
    linarith [h4]
  · intro h
    have h3 : (k : ℚ) ≤ 11 / 2 / p / lot := by
      by_contra hc
      push_neg at hc
      have h4 : (11 / 2 / p / lot) * (lot * p) < (k : ℚ) * (lot * p) :=
        mul_lt_mul_of_pos_right hc (by positivity)
      rw [hxval] at h4
      linarith
    have h2 : (k : ℤ) ≤ ⌊11 / 2 / p / lot⌋ := Int.le_floor.mpr h3
    have h1 : (k : ℚ) < (⌊11 / 2 / p / lot⌋ : ℚ) + 1 := by
      have : ((k : ℤ) : ℚ) ≤ (⌊11 / 2 / p / lot⌋ : ℚ) := by exact_mod_cast h2
      push_cast at this ⊢
      linarith
    exact h1

/-! ## Claim C4 -/

/-- Claim C4: for every call try_hedge(qty) with
total_to_hedge = qty + naked_exposure positive, if the lot-floored quantity
is below lot_size then no futures order is placed, naked_exposure is set to
total_to_hedge, and the call returns (true, 0): accumulation, not failure. -/
theorem claim_C4 (cfg : StrategyConfig) (st : Ledger) (qty : ℚ) (attempts : ℕ → HedgeAttempt)
    (hpos : 0 < qty + st.naked_exposure)
    (hsmall : floorToLot cfg.lot_size (qty + st.naked_exposure) < cfg.lot_size) :
    tryHedge cfg st qty attempts =
      ⟨true, 0, { st with naked_exposure := qty + st.naked_exposure }, []⟩ := by
  have hmax : max 0 (qty + st.naked_exposure) = qty + st.naked_exposure :=
    max_eq_right hpos.le
  have hguard : ¬(qty ≤ 0 ∧ max 0 (qty + st.naked_exposure) ≤ 0) := by
    rw [hmax]
    intro h
    linarith [h.2]
  unfold tryHedge
  rw [if_neg hguard, hmax, if_pos hsmall]

/-- Witness for claim C4 at a concrete input: lot_size 1, prior naked
exposure 1/4, new quantity 1/4. -/
theorem claim_C4_witness :
    (0 : ℚ) < 1 / 4 + (0 : ℚ) + 1 / 4 ∧
    tryHedge ⟨1 / 100, 1, 1 / 100, 3 / 10, 1 / 100, 1, 1 / 2, 3⟩ ⟨1 / 4, 0, 0, 0, 0, 0⟩
        (1 / 4) (fun _ => HedgeAttempt.failure) =
      ⟨true, 0, ⟨1 / 2, 0, 0, 0, 0, 0⟩, []⟩ := by
  constructor
  · norm_num
  · have h := claim_C4 ⟨1 / 100, 1, 1 / 100, 3 / 10, 1 / 100, 1, 1 / 2, 3⟩
      ⟨1 / 4, 0, 0, 0, 0, 0⟩ (1 / 4) (fun _ => HedgeAttempt.failure)
      (by norm_num) (by norm_num [floorToLot, pyInt])
    refine h.trans ?_
    simp only [HedgeOutcome.mk.injEq, Ledger.mk.injEq]
    norm_num

/-! ## Claim C8 -/

/-- Counterexample to claim C8: at close-task termination with pending
residual 1, naked_exposure does grow by 1, but the residual is also kept in
close_pending_hedge, and a subsequently started close task reads it back
as its initial pending hedge, contradicting the claim that the quantity is
not simultaneously carried forward (no double-counting). -/
theorem claim_C8_counterexample :
    (closeTaskEnd ⟨0, 0⟩ 1).naked_exposure = 1 ∧
    (closeTaskEnd ⟨0, 0⟩ 1).close_pending_hedge = 1 ∧
    closeTaskStartPending (closeTaskEnd ⟨0, 0⟩ 1) = 1 ∧ (1 : ℚ) ≠ 0 := by
  refine ⟨?_, ?_, ?_, by norm_num⟩ <;>
    norm_num [closeTaskEnd, closeTaskStartPending, eps]

/-- Claim C8 (amended): when the close task terminates with residual
pending hedge above the 1e-12 tolerance, naked_exposure increases by the
residual, but the residual is also retained in close_pending_hedge, so a
future close task starts with it as its initial pending hedge: the
quantity is transferred to naked_exposure and simultaneously carried
forward (double-counted). -/
theorem claim_C8_amended (st : CloseEndState) (pending : ℚ) (h : eps < pending) :
    (closeTaskEnd st pending).naked_exposure = st.naked_exposure + pending ∧
    (closeTaskEnd st pending).close_pending_hedge = pending ∧
    closeTaskStartPending (closeTaskEnd st pending) = pending := by
  have h0 : (0 : ℚ) ≤ pending := le_trans eps_pos.le h.le
  refine ⟨by simp [closeTaskEnd, h], by simp [closeTaskEnd, max_eq_right h0], ?_⟩
  simp [closeTaskStartPending, closeTaskEnd, max_eq_right h0]

/-- Witness for claim C8 (amended) at pending = 1. -/
theorem claim_C8_amended_witness :
    eps < (1 : ℚ) ∧
    (closeTaskEnd ⟨2, 0⟩ 1).naked_exposure = 2 + 1 ∧
    (closeTaskEnd ⟨2, 0⟩ 1).close_pending_hedge = 1 ∧
    closeTaskStartPending (closeTaskEnd ⟨2, 0⟩ 1) = 1 := by
  have h : eps < (1 : ℚ) := by norm_num [eps]
  exact ⟨h, claim_C8_amended ⟨2, 0⟩ 1 h⟩

/-! ## Claim C7 -/

/-- Counterexample to claim C7: with price 11/2 and lot 1, a floored
quantity of 1 has notional exactly 11/2, which is not below the notional
floor, yet the code raises it to 2 because min_notional_qty uses
int(x + 1) rather than the ceiling. -/
theorem claim_C7_counterexample :
    applyNotionalRaise 1 (11 / 2) 1 = 2 ∧ ¬((1 : ℚ) * (11 / 2) < 11 / 2) := by
  constructor
  · norm_num [applyNotionalRaise, minNotionalQty, pyInt]
  · norm_num

/-- Claim C7 (amended): for a lot-multiple quantity, the notional raise
fires if and only if qty * price is at most 5.5 (not: strictly below 5.5),
and when it fires the result is the smallest lot-multiple whose notional
strictly exceeds 5.5. -/
theorem claim_C7_amended (q p lot : ℚ) (hp : 0 < p) (hlot : 0 < lot) (k : ℕ)
    (hk : q = (k : ℚ) * lot) :
    (applyNotionalRaise q p lot ≠ q ↔ q * p ≤ 11 / 2) ∧
    (q * p ≤ 11 / 2 →
      11 / 2 < applyNotionalRaise q p lot * p ∧
      (∃ m : ℕ, applyNotionalRaise q p lot = (m : ℚ) * lot) ∧
      ∀ j : ℕ, 11 / 2 < (j : ℚ) * lot * p → applyNotionalRaise q p lot ≤ (j : ℚ) * lot) := by
  subst hk
  have hiff := notionalRaise_cond_iff p lot hp hlot k
  have hraise : (k : ℚ) * lot * p ≤ 11 / 2 →
      applyNotionalRaise ((k : ℚ) * lot) p lot = minNotionalQty p lot := by
    intro h
    unfold applyNotionalRaise
    rw [if_pos (hiff.mpr h)]
  constructor
  · constructor
    · intro hne
      by_contra hc
      push_neg at hc
      have hnot : ¬((k : ℚ) * lot < minNotionalQty p lot) := fun hlt =>
        absurd (hiff.mp hlt) (not_le.mpr hc)
      exact hne (by unfold applyNotionalRaise; rw [if_neg hnot])
    · intro h
      rw [hraise h]
      have hlt := hiff.mpr h
      exact ne_of_gt hlt
  · intro h
    rw [hraise h, minNotionalQty_eq p lot hp hlot]
    have hxval : (11 / 2 / p / lot) * (lot * p) = 11 / 2 := by
      field_simp
      ring
    have hfl : (0 : ℤ) ≤ ⌊11 / 2 / p / lot⌋ :=
      Int.floor_nonneg.mpr (by positivity)
    refine ⟨?_, ?_, ?_⟩
    · have h1 : 11 / 2 / p / lot < (⌊11 / 2 / p / lot⌋ : ℚ) + 1 :=
        Int.lt_floor_add_one _
      have h2 : (11 / 2 / p / lot) * (lot * p) < ((⌊11 / 2 / p / lot⌋ : ℚ) + 1) * (lot * p) :=
        mul_lt_mul_of_pos_right h1 (by positivity)
      rw [hxval] at h2
      nlinarith [h2]
    · refine ⟨(⌊11 / 2 / p / lot⌋ + 1).toNat, ?_⟩
      have : ((⌊11 / 2 / p / lot⌋ + 1).toNat : ℤ) = ⌊11 / 2 / p / lot⌋ + 1 :=
        Int.toNat_of_nonneg (by omega)
      have hcast : (((⌊11 / 2 / p / lot⌋ + 1).toNat : ℕ) : ℚ) = (⌊11 / 2 / p / lot⌋ : ℚ) + 1 := by
        exact_mod_cast congrArg (fun z : ℤ => (z : ℚ)) this
      rw [hcast]
    · intro j hj
      have hgt : 11 / 2 / p / lot < (j : ℚ) := by
        by_contra hc
        push_neg at hc
        have h4 : (j : ℚ) * (lot * p) ≤ (11 / 2 / p / lot) * (lot * p) :=
          mul_le_mul_of_nonneg_right hc (by positivity)
        rw [hxval] at h4
        nlinarith [h4]
      have h5 : ⌊11 / 2 / p / lot⌋ < (j : ℤ) := Int.floor_lt.mpr (by exact_mod_cast hgt)
      have h6 : (⌊11 / 2 / p / lot⌋ : ℚ) + 1 ≤ (j : ℚ) := by
        have : ⌊11 / 2 / p / lot⌋ + 1 ≤ (j : ℤ) := by omega
        exact_mod_cast this
      exact mul_le_mul_of_nonneg_right h6 hlot.le

/-- Witness for claim C7 (amended) at q = 0, p = 1, lot = 1. -/
theorem claim_C7_amended_witness :
    (0 : ℚ) < 1 ∧ (0 : ℚ) = ((0 : ℕ) : ℚ) * 1 ∧
    (applyNotionalRaise 0 1 1 ≠ 0 ↔ (0 : ℚ) * 1 ≤ 11 / 2) := by
  refine ⟨by norm_num, by norm_num, ?_⟩
  exact (claim_C7_amended 0 1 1 (by norm_num) (by norm_num) 0 (by norm_num)).1

/-! ## Claim C6 -/

theorem drainGo_spec_mem (active : List String) (oid : String) (hmem : oid ∈ active) :
    ∀ (evs : List FillEvent) (fills : List (String × ℚ)),
      alookup (drainGo active fills evs) oid =
        (lastFillFor oid evs).elim (alookup fills oid) some := by
  intro evs
  induction evs with
  | nil => intro fills; simp [drainGo, lastFillFor, Option.elim]
  | cons e rest ih =>
    intro fills
    rw [drainGo, ih]
    cases hlast : lastFillFor oid rest with
    | some v => simp [lastFillFor, hlast, Option.elim]
    | none =>
      by_cases heq : e.order_id = oid
      · subst heq
        simp [lastFillFor, hlast, Option.elim, hmem, alookup_dictSet_self]
      · simp only [lastFillFor, hlast, Option.elim, if_neg heq]
        by_cases hact : e.order_id ∈ active
        · simp [hact, alookup_dictSet_ne _ _ _ _ heq]
        · simp [hact]

theorem drainGo_spec_not_mem (active : List String) (oid : String) (hmem : oid ∉ active) :
    ∀ (evs : List FillEvent) (fills : List (String × ℚ)),
      alookup (drainGo active fills evs) oid = alookup fills oid := by
  intro evs
  induction evs with
  | nil => intro fills; simp [drainGo]
  | cons e rest ih =>
    intro fills
    rw [drainGo, ih]
    by_cases hact : e.order_id ∈ active
    · have hne : e.order_id ≠ oid := fun h => hmem (h ▸ hact)
      simp [hact, alookup_dictSet_ne _ _ _ _ hne]
    · simp [hact]

/-- Counterexample to claim C6: with two drained events for the same active
order, cumulative 5 then a stale 3, drain_fill_queue returns 3 (the last
event), not the maximum 5. -/
theorem claim_C6_counterexample :
    alookup (drainFillQueue ["a"] [⟨"a", 5, 5, 10⟩, ⟨"a", 3, 1, 10⟩]) "a" = some 3 ∧
    max (5 : ℚ) 3 = 5 ∧ (3 : ℚ) ≠ 5 := by
  refine ⟨?_, by norm_num, by norm_num⟩
  rfl

/-- Claim C6 (amended): drain_fill_queue returns, for every active order
with at least one drained push event, the cum_filled of the LAST drained
event for that order (not the maximum); ids without events, and inactive
ids, are absent.  A stale lower value still cannot lower the recorded
cumulative fill, because record_spot_fill ignores any report that does not
exceed accounted_qty by more than 1e-12. -/
theorem claim_C6_amended (active : List String) (events : List FillEvent) (oid : String) :
    (oid ∈ active →
      alookup (drainFillQueue active events) oid = lastFillFor oid events) ∧
    (oid ∉ active → alookup (drainFillQueue active events) oid = none) ∧
    (∀ (st : Ledger) (o : LevelOrder) (cum : ℚ), cum ≤ o.accounted_qty →
      recordSpotFill st o cum = (st, o, 0)) := by
  refine ⟨?_, ?_, ?_⟩
  · intro hmem
    rw [drainFillQueue, drainGo_spec_mem active oid hmem events []]
    cases lastFillFor oid events <;> simp [Option.elim, alookup]
  · intro hmem
    rw [drainFillQueue, drainGo_spec_not_mem active oid hmem events []]
    simp [alookup]
  · intro st o cum hle
    unfold recordSpotFill
    rw [if_pos (by linarith [eps_pos] : cum - o.accounted_qty ≤ eps)]

/-- Witness for claim C6 (amended) on the concrete two-event queue. -/
theorem claim_C6_amended_witness :
    ("a" : String) ∈ ["a"] ∧
    alookup (drainFillQueue ["a"] [⟨"a", 5, 5, 10⟩, ⟨"a", 3, 1, 10⟩]) "a" =
      lastFillFor "a" [⟨"a", 5, 5, 10⟩, ⟨"a", 3, 1, 10⟩] := by
  have hm : ("a" : String) ∈ ["a"] := by simp
  exact ⟨hm, (claim_C6_amended ["a"] [⟨"a", 5, 5, 10⟩, ⟨"a", 3, 1, 10⟩] "a").1 hm⟩

/-! ## Claim C3 -/

/-- True when the retry loop hits the -4164 rejection before any
successful placement. -/
def rejectedNotional : List HedgeAttempt → Bool
  | [] => false
  | HedgeAttempt.failure :: rest => rejectedNotional rest
  | HedgeAttempt.notionalTooSmall :: _ => true
  | HedgeAttempt.success _ :: _ => false

/-- Every attempt raised an ordinary (retryable) exception. -/
def allAttemptsFail (l : List HedgeAttempt) : Prop :=
  ∀ a ∈ l, a = HedgeAttempt.failure

/-- The average price of the first successful placement, when the loop
reaches one before a -4164 rejection or exhaustion. -/
def firstSuccess : List HedgeAttempt → Option (Option ℚ)
  | [] => none
  | HedgeAttempt.failure :: rest => firstSuccess rest
  | HedgeAttempt.success px :: _ => some px
  | HedgeAttempt.notionalTooSmall :: _ => none

theorem tryHedgeLoop_abort (hq residual total : ℚ) (st : Ledger) (l : List HedgeAttempt)
    (h : rejectedNotional l = true ∨ allAttemptsFail l) :
    ∃ cs, tryHedgeLoop hq residual total st l =
      ⟨false, 0, { st with naked_exposure := total }, cs⟩ := by
  induction l with
  | nil => exact ⟨[], rfl⟩
  | cons a rest ih =>
    cases a with
    | success px =>
      rcases h with h | h
      · simp [rejectedNotional] at h
      · exact absurd (h _ (List.mem_cons_self _ _)) (by simp)
    | notionalTooSmall => exact ⟨[hq], rfl⟩
    | failure =>
      have h2 : rejectedNotional rest = true ∨ allAttemptsFail rest := by
        rcases h with h | h
        · exact Or.inl (by simpa [rejectedNotional] using h)
        · exact Or.inr fun a ha => h a (List.mem_cons_of_mem _ ha)
      obtain ⟨cs, hcs⟩ := ih h2
      exact ⟨hq :: cs, by simp [tryHedgeLoop, hcs]⟩

theorem tryHedgeLoop_success (hq residual total : ℚ) (st : Ledger) (l : List HedgeAttempt)
    (px : Option ℚ) (h : firstSuccess l = some px) :
    ∃ cs, tryHedgeLoop hq residual total st l =
      ⟨decide (residual ≤ eps), hq, hedgeCommit st hq residual px, cs⟩ := by
  induction l with
  | nil => simp [firstSuccess] at h
  | cons a rest ih =>
    cases a with
    | success px0 =>
      simp only [firstSuccess, Option.some.injEq] at h
      subst h
      exact ⟨[hq], rfl⟩
    | notionalTooSmall => simp [firstSuccess] at h
    | failure =>
      obtain ⟨cs, hcs⟩ := ih (by simpa [firstSuccess] using h)
      exact ⟨hq :: cs, by simp [tryHedgeLoop, hcs]⟩

theorem hedgeAttempts_trichotomy (l : List HedgeAttempt) :
    (rejectedNotional l = true ∨ allAttemptsFail l) ∨ ∃ px, firstSuccess l = some px := by
  induction l with
  | nil => exact Or.inl (Or.inr (by intro a ha; simp at ha))
  | cons a rest ih =>
    cases a with
    | success px => exact Or.inr ⟨px, rfl⟩
    | notionalTooSmall => exact Or.inl (Or.inl rfl)
    | failure =>
      rcases ih with (h | h) | ⟨px, h⟩
      · exact Or.inl (Or.inl (by simpa [rejectedNotional] using h))
      · exact Or.inl (Or.inr (by
          intro a ha
          rcases List.mem_cons.mp ha with rfl | ha
          · rfl
          · exact h a ha))
      · exact Or.inr ⟨px, by simpa [firstSuccess] using h⟩

/-- Claim C3: try_hedge returns (false, 0) with naked_exposure set to the
full total_to_hedge and the hedged totals (base, quote, priced base)
unchanged exactly when the retry loop ran (lot-floored quantity at least
one lot) and either the venue rejected the sell as notional-too-small
before any success, or all max_retry placement attempts failed. -/
theorem claim_C3 (cfg : StrategyConfig) (st : Ledger) (qty : ℚ) (attempts : ℕ → HedgeAttempt)
    (hlot : 0 < cfg.lot_size) :
    ((tryHedge cfg st qty attempts).ok = false ∧
     (tryHedge cfg st qty attempts).hedged = 0 ∧
     (tryHedge cfg st qty attempts).ledger.naked_exposure = max 0 (qty + st.naked_exposure) ∧
     (tryHedge cfg st qty attempts).ledger.total_hedged_base = st.total_hedged_base ∧
     (tryHedge cfg st qty attempts).ledger.total_hedged_quote = st.total_hedged_quote ∧
     (tryHedge cfg st qty attempts).ledger.total_hedged_base_priced =
       st.total_hedged_base_priced) ↔
    (cfg.lot_size ≤ floorToLot cfg.lot_size (max 0 (qty + st.naked_exposure)) ∧
     (rejectedNotional ((List.range cfg.max_retry).map attempts) = true ∨
      allAttemptsFail ((List.range cfg.max_retry).map attempts))) := by
  set total := max 0 (qty + st.naked_exposure) with htotal
  set hq := floorToLot cfg.lot_size total with hhq
  set residual := max 0 (total - hq) with hres
  set l := (List.range cfg.max_retry).map attempts with hl
  constructor
  · intro hfail
    by_cases hg1 : qty ≤ 0 ∧ total ≤ 0
    · exfalso
      have : (tryHedge cfg st qty attempts).ok = true := by
        unfold tryHedge
        rw [if_pos hg1]
      rw [hfail.1] at this
      exact Bool.false_ne_true this
    · by_cases hg2 : hq < cfg.lot_size
      · exfalso
        have : (tryHedge cfg st qty attempts).ok = true := by
          unfold tryHedge
          rw [if_neg hg1, if_pos hg2]
        rw [hfail.1] at this
        exact Bool.false_ne_true this
      · refine ⟨not_lt.mp hg2, ?_⟩
        have hrun : tryHedge cfg st qty attempts = tryHedgeLoop hq residual total st l := by
          unfold tryHedge
          rw [if_neg hg1, if_neg hg2]
        rcases hedgeAttempts_trichotomy l with h | ⟨px, hpx⟩
        · exact h
        · exfalso
          obtain ⟨cs, hcs⟩ := tryHedgeLoop_success hq residual total st l px hpx
          have hhedged : (tryHedge cfg st qty attempts).hedged = hq := by
            rw [hrun, hcs]
          have hq0 : hq = 0 := by rw [← hhedged, hfail.2.1]
          have : cfg.lot_size ≤ (0 : ℚ) := by
            rw [← hq0]
            exact not_lt.mp hg2
          linarith
  · intro ⟨hge, habort⟩
    have htpos : 0 < total := lt_of_lt_of_le hlot (le_trans hge (floorToLot_le _ _ hlot
      (le_max_left 0 _)))
    have hg1 : ¬(qty ≤ 0 ∧ total ≤ 0) := fun h => absurd htpos (not_lt.mpr h.2)
    have hg2 : ¬(hq < cfg.lot_size) := not_lt.mpr hge
    have hrun : tryHedge cfg st qty attempts = tryHedgeLoop hq residual total st l := by
      unfold tryHedge
      rw [if_neg hg1, if_neg hg2]
    obtain ⟨cs, hcs⟩ := tryHedgeLoop_abort hq residual total st l habort
    rw [hrun, hcs]
    exact ⟨rfl, rfl, rfl, rfl, rfl, rfl⟩

/-- Witness for claim C3: lot_size 1, quantity 2, both retry attempts
raise ordinary errors. -/
theorem claim_C3_witness :
    (0 : ℚ) < 1 ∧
    (tryHedge ⟨1 / 100, 1, 1 / 100, 3 / 10, 1 / 100, 1, 1 / 2, 2⟩ ⟨0, 0, 0, 0, 0, 0⟩ 2
        (fun _ => HedgeAttempt.failure)).ok = false ∧
    (tryHedge ⟨1 / 100, 1, 1 / 100, 3 / 10, 1 / 100, 1, 1 / 2, 2⟩ ⟨0, 0, 0, 0, 0, 0⟩ 2
        (fun _ => HedgeAttempt.failure)).ledger.naked_exposure = max 0 (2 + 0) := by
  have h := (claim_C3 ⟨1 / 100, 1, 1 / 100, 3 / 10, 1 / 100, 1, 1 / 2, 2⟩ ⟨0, 0, 0, 0, 0, 0⟩ 2
    (fun _ => HedgeAttempt.failure) (by norm_num)).mpr
    ⟨by norm_num [floorToLot, pyInt], Or.inr (by
      intro a ha
      simp only [List.mem_map] at ha
      obtain ⟨i, _, hi⟩ := ha
      exact hi.symm)⟩
  exact ⟨by norm_num, h.1, h.2.2.1⟩

/-! ## Claim C5 -/

/-- Claim C5: when try_hedge's futures market sell succeeds but
total_to_hedge is not an exact lot multiple (residual above 1e-12), the
call returns (false, hedge_qty) with hedge_qty positive, total_hedged_base
increased by hedge_qty and naked_exposure = residual; and because the flag
is false, a caller in _sync_orders' step-3 position cancels the entire
ladder and reports failure even though the hedge order itself succeeded. -/
theorem claim_C5 :
    (∀ (cfg : StrategyConfig) (st : Ledger) (qty : ℚ) (attempts : ℕ → HedgeAttempt)
        (px : Option ℚ), 0 < cfg.lot_size →
      cfg.lot_size ≤ floorToLot cfg.lot_size (max 0 (qty + st.naked_exposure)) →
      firstSuccess ((List.range cfg.max_retry).map attempts) = some px →
      eps < max 0 (max 0 (qty + st.naked_exposure) -
        floorToLot cfg.lot_size (max 0 (qty + st.naked_exposure))) →
      (tryHedge cfg st qty attempts).ok = false ∧
      (tryHedge cfg st qty attempts).hedged =
        floorToLot cfg.lot_size (max 0 (qty + st.naked_exposure)) ∧
      0 < (tryHedge cfg st qty attempts).hedged ∧
      (tryHedge cfg st qty attempts).ledger.total_hedged_base =
        st.total_hedged_base + floorToLot cfg.lot_size (max 0 (qty + st.naked_exposure)) ∧
      (tryHedge cfg st qty attempts).ledger.naked_exposure =
        max 0 (max 0 (qty + st.naked_exposure) -
          floorToLot cfg.lot_size (max 0 (qty + st.naked_exposure)))) ∧
    (∀ (cfg : StrategyConfig) (st : Ledger) (current : List (ℕ × LevelOrder))
        (desired : List (ℕ × ℚ × ℚ)) (env : SyncEnv),
      eps < syncTotalUnhedged cfg current desired env →
      (tryHedge cfg st (syncTotalUnhedged cfg current desired env) env.attempts1).ok = false →
      (syncOrders cfg st current desired env).ok = false ∧
      (syncOrders cfg st current desired env).placed = [] ∧
      ∀ lv ∈ current.map Prod.fst, lv ∈ (syncOrders cfg st current desired env).cancelled) := by
  constructor
  · intro cfg st qty attempts px hlot hge hpx hres
    set total := max 0 (qty + st.naked_exposure) with htotal
    set hq := floorToLot cfg.lot_size total with hhq
    set residual := max 0 (total - hq) with hresidual
    set l := (List.range cfg.max_retry).map attempts with hl
    have htpos : 0 < total := lt_of_lt_of_le hlot (le_trans hge (floorToLot_le _ _ hlot
      (le_max_left 0 _)))
    have hg1 : ¬(qty ≤ 0 ∧ total ≤ 0) := fun h => absurd htpos (not_lt.mpr h.2)
    have hg2 : ¬(hq < cfg.lot_size) := not_lt.mpr hge
    have hrun : tryHedge cfg st qty attempts = tryHedgeLoop hq residual total st l := by
      unfold tryHedge
      rw [if_neg hg1, if_neg hg2]
    obtain ⟨cs, hcs⟩ := tryHedgeLoop_success hq residual total st l px hpx
    rw [hrun, hcs]
    exact ⟨decide_eq_false (not_le.mpr hres), rfl, lt_of_lt_of_le hlot hge, rfl, rfl⟩
  · intro cfg st current desired env hU hfail
    have hresult : syncOrders cfg st current desired env =
        ⟨syncRepricedLevels cfg current desired ++
            (current.map Prod.fst).filter
              (fun lv => decide (lv ∉ syncRepricedLevels cfg current desired)),
          [], false,
          if eps < (((current.map Prod.fst).filter
                (fun lv => decide (lv ∉ syncRepricedLevels cfg current desired))).map
                  env.cancelUnhedged).sum then
            (tryHedge cfg
              (tryHedge cfg st (syncTotalUnhedged cfg current desired env)
                env.attempts1).ledger
              (((current.map Prod.fst).filter
                (fun lv => decide (lv ∉ syncRepricedLevels cfg current desired))).map
                  env.cancelUnhedged).sum env.attempts2).ledger
          else (tryHedge cfg st (syncTotalUnhedged cfg current desired env)
            env.attempts1).ledger⟩ := by
      unfold syncOrders
      simp only [if_pos hU, hfail, Bool.false_eq_true, if_false]
    refine ⟨by rw [hresult], by rw [hresult], ?_⟩
    intro lv hlv
    rw [hresult]
    simp only [SyncResult.cancelled, List.mem_append]
    by_cases hc : lv ∈ syncRepricedLevels cfg current desired
    · exact Or.inl hc
    · exact Or.inr (List.mem_filter.mpr ⟨hlv, by simpa using hc⟩)

/-- Witness for claim C5: lot_size 1, an unhedged total of 3/2 discovered
during repricing, a first-attempt hedge success at price 10, residual 1/2. -/
theorem claim_C5_witness :
    ((0 : ℚ) < 1 ∧
      eps < max 0 (max 0 ((3 : ℚ) / 2 + 0) - floorToLot 1 (max 0 ((3 : ℚ) / 2 + 0))) ∧
      (tryHedge ⟨1 / 100, 1, 1 / 100, 3 / 10, 1 / 100, 1, 1 / 2, 1⟩ ⟨0, 0, 0, 0, 0, 0⟩ (3 / 2)
        (fun _ => HedgeAttempt.success (some 10))).ok = false ∧
      0 < (tryHedge ⟨1 / 100, 1, 1 / 100, 3 / 10, 1 / 100, 1, 1 / 2, 1⟩ ⟨0, 0, 0, 0, 0, 0⟩
        (3 / 2) (fun _ => HedgeAttempt.success (some 10))).hedged) ∧
    ((syncOrders ⟨1 / 100, 1, 1 / 100, 3 / 10, 1 / 100, 1, 1 / 2, 1⟩ ⟨0, 0, 0, 0, 0, 0⟩
        [(1, ⟨1, "a", 100, 2, 0, 0⟩), (2, ⟨2, "b", 99, 2, 0, 0⟩)] [(1, 200, 2)]
        ⟨fun _ => 3 / 2, fun _ => HedgeAttempt.success (some 10),
          fun _ => HedgeAttempt.failure⟩).ok = false ∧
      (1 : ℕ) ∈ (syncOrders ⟨1 / 100, 1, 1 / 100, 3 / 10, 1 / 100, 1, 1 / 2, 1⟩
        ⟨0, 0, 0, 0, 0, 0⟩
        [(1, ⟨1, "a", 100, 2, 0, 0⟩), (2, ⟨2, "b", 99, 2, 0, 0⟩)] [(1, 200, 2)]
        ⟨fun _ => 3 / 2, fun _ => HedgeAttempt.success (some 10),
          fun _ => HedgeAttempt.failure⟩).cancelled ∧
      (2 : ℕ) ∈ (syncOrders ⟨1 / 100, 1, 1 / 100, 3 / 10, 1 / 100, 1, 1 / 2, 1⟩
        ⟨0, 0, 0, 0, 0, 0⟩
        [(1, ⟨1, "a", 100, 2, 0, 0⟩), (2, ⟨2, "b", 99, 2, 0, 0⟩)] [(1, 200, 2)]
        ⟨fun _ => 3 / 2, fun _ => HedgeAttempt.success (some 10),
          fun _ => HedgeAttempt.failure⟩).cancelled) := by
  have hres : eps < max 0 (max 0 ((3 : ℚ) / 2 + 0) - floorToLot 1 (max 0 ((3 : ℚ) / 2 + 0))) := by
    norm_num [floorToLot, pyInt, eps]
  have hA := claim_C5.1 ⟨1 / 100, 1, 1 / 100, 3 / 10, 1 / 100, 1, 1 / 2, 1⟩ ⟨0, 0, 0, 0, 0, 0⟩
    (3 / 2) (fun _ => HedgeAttempt.success (some 10)) (some 10) (by norm_num)
    (by norm_num [floorToLot, pyInt]) rfl hres
  have hUval : syncTotalUnhedged ⟨1 / 100, 1, 1 / 100, 3 / 10, 1 / 100, 1, 1 / 2, 1⟩
      [(1, ⟨1, "a", 100, 2, 0, 0⟩), (2, ⟨2, "b", 99, 2, 0, 0⟩)] [(1, 200, 2)]
      ⟨fun _ => 3 / 2, fun _ => HedgeAttempt.success (some 10),
        fun _ => HedgeAttempt.failure⟩ = 3 / 2 := by
    norm_num [syncTotalUnhedged, syncRepricedLevels, needReprice, alookup, List.filter]
  have hB := claim_C5.2 ⟨1 / 100, 1, 1 / 100, 3 / 10, 1 / 100, 1, 1 / 2, 1⟩ ⟨0, 0, 0, 0, 0, 0⟩
    [(1, ⟨1, "a", 100, 2, 0, 0⟩), (2, ⟨2, "b", 99, 2, 0, 0⟩)] [(1, 200, 2)]
    ⟨fun _ => 3 / 2, fun _ => HedgeAttempt.success (some 10), fun _ => HedgeAttempt.failure⟩
    (by rw [hUval]; norm_num [eps])
    (by
      rw [hUval]
      norm_num [tryHedge, tryHedgeLoop, floorToLot, pyInt, eps, hedgeCommit,
        List.range_succ, List.range_zero])
  refine ⟨⟨by norm_num, hres, hA.1, hA.2.2.1⟩, hB.1, ?_, ?_⟩
  · exact hB.2.2 1 (by simp)
  · exact hB.2.2 2 (by simp)

/-! ## Claim C1 -/

theorem levelQuote_some (cfg : StrategyConfig) (ms cy fb : ℚ) (bids : List (ℚ × ℚ))
    (lv : ℕ) (w : ℚ) (r : ℕ × ℚ × ℚ) (h : levelQuote cfg ms cy fb bids lv w = some r) :
    r.1 = lv ∧ ∃ sz, bids.get? (lv - 1) = some (r.2.1, sz) := by
  unfold levelQuote at h
  cases hg : bids.get? (lv - 1) with
  | none => rw [hg] at h; exact absurd h (by simp)
  | some psz =>
    obtain ⟨p, sz⟩ := psz
    rw [hg] at h
    dsimp only at h
    split_ifs at h with h1 h2 h3
    rw [Option.some.injEq] at h
    subst h
    exact ⟨rfl, sz, rfl⟩

theorem levelQuote_none (cfg : StrategyConfig) (ms cy fb : ℚ) (bids : List (ℚ × ℚ))
    (lv : ℕ) (w : ℚ) (hlv : 1 ≤ lv)
    (hcond : bids.length < lv ∨ ∃ p sz, bids.get? (lv - 1) = some (p, sz) ∧
      (p ≤ 0 ∨ (fb - p) / p < ms ∨ levelFinalQty cfg cy p sz w < cfg.min_order_qty)) :
    levelQuote cfg ms cy fb bids lv w = none := by
  unfold levelQuote
  rcases hcond with hlen | ⟨p, sz, hget, hc⟩
  · have hg : bids.get? (lv - 1) = none := List.get?_eq_none.mpr (by omega)
    rw [hg]
  · rw [hget]
    dsimp only
    rcases hc with hp | hs | hq
    · rw [if_pos hp]
    · by_cases hp : p ≤ 0
      · rw [if_pos hp]
      · rw [if_neg hp, if_pos hs]
    · by_cases hp : p ≤ 0
      · rw [if_pos hp]
      · by_cases hs : (fb - p) / p < ms
        · rw [if_neg hp, if_pos hs]
        · rw [if_neg hp, if_neg hs, if_pos hq]

theorem selectLoop_weights (cfg : StrategyConfig) (ms cy fb : ℚ) (bids : List (ℚ × ℚ)) :
    selectLoop cfg ms cy fb bids levelWeights =
      match levelQuote cfg ms cy fb bids 1 (1 / 5), levelQuote cfg ms cy fb bids 2 (3 / 10),
          levelQuote cfg ms cy fb bids 3 (1 / 2) with
      | some q1, some q2, some q3 => some [q1, q2, q3]
      | _, _, _ => none := by
  show selectLoop cfg ms cy fb bids [(1, 1 / 5), (2, 3 / 10), (3, 1 / 2)] = _
  simp only [selectLoop]
  cases levelQuote cfg ms cy fb bids 1 (1 / 5) <;>
    cases levelQuote cfg ms cy fb bids 2 (3 / 10) <;>
      cases levelQuote cfg ms cy fb bids 3 (1 / 2) <;> rfl

/-- Claim C1: for every spot bid book and perpetual best bid,
_select_all_levels returns either the empty list or exactly three quotes,
one for each level in 1..3 in ascending order, each priced at that level's
bid; and if for any of the three levels the book is too shallow, the bid
price is non-positive, the spread is below the threshold, or the computed
quantity after depth-clamp, lot-floor and notional-raise is below
min_order_qty, the whole result is empty. -/
theorem claim_C1 (cfg : StrategyConfig) (minSpread filledBase futBid : ℚ)
    (bids : List (ℚ × ℚ)) :
    (selectAllLevels cfg minSpread filledBase bids futBid = [] ∨
      ((selectAllLevels cfg minSpread filledBase bids futBid).map Prod.fst = [1, 2, 3] ∧
        ∀ r ∈ selectAllLevels cfg minSpread filledBase bids futBid,
          ∃ sz, bids.get? (r.1 - 1) = some (r.2.1, sz))) ∧
    (∀ lv w, (lv, w) ∈ levelWeights →
      (bids.length < lv ∨
        ∃ p sz, bids.get? (lv - 1) = some (p, sz) ∧
          (p ≤ 0 ∨ (futBid - p) / p < minSpread ∨
            levelFinalQty cfg (cycleBudget cfg filledBase) p sz w < cfg.min_order_qty)) →
      selectAllLevels cfg minSpread filledBase bids futBid = []) := by
  by_cases hf : futBid ≤ 0
  · exact ⟨Or.inl (by simp [selectAllLevels, hf]), fun lv w _ _ => by
      simp [selectAllLevels, hf]⟩
  · by_cases hr : max 0 (cfg.total_budget - filledBase) ≤ 0
    · exact ⟨Or.inl (by simp [selectAllLevels, hf, hr]), fun lv w _ _ => by
        simp [selectAllLevels, hf, hr]⟩
    · have hsel : selectAllLevels cfg minSpread filledBase bids futBid =
          (selectLoop cfg minSpread (cycleBudget cfg filledBase) futBid bids
            levelWeights).getD [] := by
        simp [selectAllLevels, hf, hr]
      constructor
      · cases h1 : levelQuote cfg minSpread (cycleBudget cfg filledBase) futBid bids 1
            (1 / 5) with
        | none => exact Or.inl (by rw [hsel, selectLoop_weights, h1]; rfl)
        | some q1 =>
          cases h2 : levelQuote cfg minSpread (cycleBudget cfg filledBase) futBid bids 2
              (3 / 10) with
          | none => exact Or.inl (by rw [hsel, selectLoop_weights, h1, h2]; rfl)
          | some q2 =>
            cases h3 : levelQuote cfg minSpread (cycleBudget cfg filledBase) futBid bids 3
                (1 / 2) with
            | none => exact Or.inl (by rw [hsel, selectLoop_weights, h1, h2, h3]; rfl)
            | some q3 =>
              refine Or.inr ?_
              have hsel3 : selectAllLevels cfg minSpread filledBase bids futBid =
                  [q1, q2, q3] := by
                rw [hsel, selectLoop_weights, h1, h2, h3]
                rfl
              obtain ⟨e1, sz1, hs1⟩ := levelQuote_some _ _ _ _ _ _ _ _ h1
              obtain ⟨e2, sz2, hs2⟩ := levelQuote_some _ _ _ _ _ _ _ _ h2
              obtain ⟨e3, sz3, hs3⟩ := levelQuote_some _ _ _ _ _ _ _ _ h3
              constructor
              · rw [hsel3]
                simp [e1, e2, e3]
              · intro r hrmem
                rw [hsel3] at hrmem
                simp only [List.mem_cons, List.not_mem_nil, or_false] at hrmem
                rcases hrmem with rfl | rfl | rfl
                · exact ⟨sz1, e1 ▸ hs1⟩
                · exact ⟨sz2, e2 ▸ hs2⟩
                · exact ⟨sz3, e3 ▸ hs3⟩
      · intro lv w hmem hcond
        simp only [levelWeights, List.mem_cons, List.not_mem_nil, or_false,
          Prod.mk.injEq] at hmem
        rw [hsel, selectLoop_weights]
        rcases hmem with ⟨rfl, rfl⟩ | ⟨rfl, rfl⟩ | ⟨rfl, rfl⟩
        · rw [levelQuote_none cfg minSpread (cycleBudget cfg filledBase) futBid
            bids 1 (1 / 5) (by omega) hcond]
          cases levelQuote cfg minSpread (cycleBudget cfg filledBase) futBid bids 2
              (3 / 10) <;>
            cases levelQuote cfg minSpread (cycleBudget cfg filledBase) futBid bids 3
                (1 / 2) <;> rfl
        · rw [levelQuote_none cfg minSpread (cycleBudget cfg filledBase) futBid
            bids 2 (3 / 10) (by omega) hcond]
          cases levelQuote cfg minSpread (cycleBudget cfg filledBase) futBid bids 1
              (1 / 5) <;>
            cases levelQuote cfg minSpread (cycleBudget cfg filledBase) futBid bids 3
                (1 / 2) <;> rfl
        · rw [levelQuote_none cfg minSpread (cycleBudget cfg filledBase) futBid
            bids 3 (1 / 2) (by omega) hcond]
          cases levelQuote cfg minSpread (cycleBudget cfg filledBase) futBid bids 1
              (1 / 5) <;>
            cases levelQuote cfg minSpread (cycleBudget cfg filledBase) futBid bids 2
                (3 / 10) <;> rfl

/-- Witness for claim C1: an empty book is too shallow for level 1, so the
ladder is empty. -/
theorem claim_C1_witness :
    (1, (1 : ℚ) / 5) ∈ levelWeights ∧ ([] : List (ℚ × ℚ)).length < 1 ∧
    selectAllLevels ⟨1 / 100, 1, 1 / 100, 3 / 10, 1 / 100, 1, 1 / 2, 3⟩ 0 0 [] 100 = [] := by
  refine ⟨by simp [levelWeights], by simp, ?_⟩
  exact (claim_C1 ⟨1 / 100, 1, 1 / 100, 3 / 10, 1 / 100, 1, 1 / 2, 3⟩ 0 0 100 []).2 1 (1 / 5)
    (by simp [levelWeights]) (Or.inl (by simp))

/-! ## Claim C10 -/

/-- Counterexample to claim C10: the single desired quote is identical to
the live level-1 order (zero price and quantity delta, below both
thresholds), yet _sync_orders cancels the ladder and returns failure,
because naked_exposure (1) has reached lot_size (1). -/
theorem claim_C10_counterexample :
    (|(100 : ℚ) - 100| < max ((100 : ℚ) * (1 / 2 / 10000)) ((1 / 100 : ℚ) * 3) ∧
      |(2 : ℚ) - 2| < (1 : ℚ) / 2) ∧
    syncOrders ⟨1 / 100, 1, 1 / 100, 3 / 10, 1 / 100, 1, 1 / 2, 3⟩ ⟨1, 0, 0, 0, 0, 0⟩
        [(1, ⟨1, "a", 100, 2, 0, 0⟩)] [(1, 100, 2)]
        ⟨fun _ => 0, fun _ => HedgeAttempt.failure, fun _ => HedgeAttempt.failure⟩ =
      ⟨[1], [], false, ⟨1, 0, 0, 0, 0, 0⟩⟩ := by
  constructor
  · constructor <;> norm_num
  · have hrep : syncRepricedLevels ⟨1 / 100, 1, 1 / 100, 3 / 10, 1 / 100, 1, 1 / 2, 3⟩
        [(1, ⟨1, "a", 100, 2, 0, 0⟩)] [(1, 100, 2)] = [] := by
      norm_num [syncRepricedLevels, needReprice, alookup, List.filter]
    have hU : syncTotalUnhedged ⟨1 / 100, 1, 1 / 100, 3 / 10, 1 / 100, 1, 1 / 2, 3⟩
        [(1, ⟨1, "a", 100, 2, 0, 0⟩)] [(1, 100, 2)]
        ⟨fun _ => 0, fun _ => HedgeAttempt.failure, fun _ => HedgeAttempt.failure⟩ = 0 := by
      rw [syncTotalUnhedged, hrep]
      rfl
    unfold syncOrders
    rw [if_neg (by rw [hU]; norm_num [eps]), hrep]
    dsimp only
    rw [if_pos (by norm_num)]
    norm_num [List.filter]

/-- Claim C10 (amended): calling _sync_orders(desired) when every desired
level already has a live order whose price delta is below
max(reprice_bps threshold, 3 ticks) and whose quantity delta is below
lot_size / 2, AND naked_exposure is below lot_size, performs no
cancellations and no new placements and returns success with the ledger
untouched. -/
theorem claim_C10_amended (cfg : StrategyConfig) (st : Ledger)
    (current : List (ℕ × LevelOrder)) (desired : List (ℕ × ℚ × ℚ)) (env : SyncEnv)
    (hmatch : ∀ d ∈ desired, ∃ o, alookup current d.1 = some o ∧
      |d.2.1 - o.price| < max (o.price * (cfg.reprice_bps / 10000))
        (cfg.tick_size_spot * 3) ∧
      |d.2.2 - o.qty| < cfg.lot_size / 2)
    (hnaked : st.naked_exposure < cfg.lot_size) :
    syncOrders cfg st current desired env = ⟨[], [], true, st⟩ := by
  have hrep : syncRepricedLevels cfg current desired = [] := by
    unfold syncRepricedLevels
    rw [List.map_eq_nil_iff]
    rw [List.filter_eq_nil_iff]
    intro d hd
    obtain ⟨o, ho, hp, hq⟩ := hmatch d (List.mem_of_mem_filter hd)
    simp only [needReprice, ho, decide_eq_true_eq]
    push_neg
    exact ⟨hp, hq⟩
  have hU : syncTotalUnhedged cfg current desired env = 0 := by
    rw [syncTotalUnhedged, hrep]
    rfl
  have hout : desired.filter (fun d => decide (d.1 ∉ current.map Prod.fst)) = [] := by
    rw [List.filter_eq_nil_iff]
    intro d hd
    obtain ⟨o, ho, -, -⟩ := hmatch d hd
    simp only [decide_eq_true_eq, not_not]
    exact List.mem_map.mpr ⟨(d.1, o), alookup_mem ho, rfl⟩
  unfold syncOrders
  rw [if_neg (by rw [hU]; norm_num [eps]), hrep]
  dsimp only
  rw [if_neg (not_le.mpr hnaked), hout]
  simp

/-- Witness for claim C10 (amended): the counterexample state with
naked_exposure lowered to 0 is a genuine no-op. -/
theorem claim_C10_amended_witness :
    ((1 : ℕ), (100 : ℚ), (2 : ℚ)) ∈ [((1 : ℕ), (100 : ℚ), (2 : ℚ))] ∧
    (0 : ℚ) < 1 ∧
    syncOrders ⟨1 / 100, 1, 1 / 100, 3 / 10, 1 / 100, 1, 1 / 2, 3⟩ ⟨0, 0, 0, 0, 0, 0⟩
        [(1, ⟨1, "a", 100, 2, 0, 0⟩)] [(1, 100, 2)]
        ⟨fun _ => 0, fun _ => HedgeAttempt.failure, fun _ => HedgeAttempt.failure⟩ =
      ⟨[], [], true, ⟨0, 0, 0, 0, 0, 0⟩⟩ := by
  refine ⟨by simp, by norm_num, ?_⟩
  refine claim_C10_amended _ _ _ _ _ ?_ (by norm_num)
  intro d hd
  simp only [List.mem_singleton] at hd
  subst hd
  refine ⟨⟨1, "a", 100, 2, 0, 0⟩, ?_, ?_, ?_⟩
  · rfl
  · norm_num
  · norm_num

/-! ## Shared lemmas for the FillReconciler claims -/

theorem allocParts_mem (l : List (String × ℚ)) (oid : String) (part : ℚ) :
    ∀ rem : ℚ, (oid, part) ∈ allocParts rem l →
      ∃ u r2, (oid, u) ∈ l ∧ part = min u r2 ∧ eps < r2 := by
  induction l with
  | nil => intro rem h; simp [allocParts] at h
  | cons p rest ih =>
    obtain ⟨k, u0⟩ := p
    intro rem h
    unfold allocParts at h
    by_cases hrem : rem ≤ eps
    · rw [if_pos hrem] at h
      simp at h
    · rw [if_neg hrem] at h
      rcases List.mem_cons.mp h with heq | hmem
      · rw [Prod.mk.injEq] at heq
        obtain ⟨rfl, rfl⟩ := heq
        exact ⟨u0, rem, List.mem_cons_self _ _, rfl, not_le.mp hrem⟩
      · obtain ⟨u, r2, hmem2, hp, hr⟩ := ih _ hmem
        exact ⟨u, r2, List.mem_cons_of_mem _ hmem2, hp, hr⟩

theorem perOrderUnhedged_mem (orders : List LevelOrder) (fills : List (String × ℚ))
    (oid : String) (u : ℚ) (h : (oid, u) ∈ perOrderUnhedged orders fills) :
    ∃ o cum, findOrder orders oid = some o ∧ (oid, cum) ∈ fills ∧
      u = cum - o.hedged_qty ∧ eps < u := by
  unfold perOrderUnhedged at h
  rw [List.mem_filterMap] at h
  obtain ⟨f, hf, hsome⟩ := h
  cases hfo : findOrder orders f.1 with
  | none => rw [hfo] at hsome; simp at hsome
  | some o =>
    rw [hfo] at hsome
    dsimp only at hsome
    by_cases hu : eps < f.2 - o.hedged_qty
    · rw [if_pos hu, Option.some.injEq, Prod.mk.injEq] at hsome
      obtain ⟨h1, h2⟩ := hsome
      subst h1
      subst h2
      exact ⟨o, f.2, hfo, by simpa using hf, rfl, hu⟩
    · rw [if_neg hu] at hsome
      simp at hsome

theorem fullyFilled_key (orders : List LevelOrder) (fills : List (String × ℚ))
    (oid : String) (h : oid ∈ fullyFilled orders fills) : oid ∈ fills.map Prod.fst := by
  unfold fullyFilled at h
  rw [List.mem_filterMap] at h
  obtain ⟨f, hf, hsome⟩ := h
  cases hfo : findOrder orders f.1 with
  | none => rw [hfo] at hsome; simp at hsome
  | some o =>
    rw [hfo] at hsome
    dsimp only at hsome
    by_cases hc : o.qty - eps ≤ f.2
    · rw [if_pos hc, Option.some.injEq] at hsome
      subst hsome
      exact List.mem_map.mpr ⟨f, hf, rfl⟩
    · rw [if_neg hc] at hsome
      simp at hsome

theorem findOrder_self (orders : List LevelOrder) (o : LevelOrder)
    (hnd : (orders.map LevelOrder.order_id).Nodup) (ho : o ∈ orders) :
    findOrder orders o.order_id = some o := by
  induction orders with
  | nil => simp at ho
  | cons a rest ih =>
    simp only [List.map_cons, List.nodup_cons] at hnd
    rcases List.mem_cons.mp ho with rfl | hm
    · rw [findOrder]
      simp [List.find?_cons]
    · have hfalse : (a.order_id == o.order_id) = false := by
        simp only [beq_eq_false_iff_ne, ne_eq]
        intro he
        exact hnd.1 (List.mem_map.mpr ⟨o, hm, he.symm⟩)
      rw [findOrder] at ih ⊢
      simp only [List.find?_cons, hfalse, cond_false]
      exact ih hnd.2 hm

theorem pairs_mem (ctx : List LevelOrder) (unh : List (String × ℚ)) (ids : List String)
    (oid : String) (u : ℚ)
    (h : (oid, u) ∈ ids.filterMap fun oid2 => (alookup unh oid2).map fun v => (oid2, v)) :
    alookup unh oid = some u := by
  rw [List.mem_filterMap] at h
  obtain ⟨oid2, _, hsome⟩ := h
  cases hl : alookup unh oid2 with
  | none => rw [hl] at hsome; simp at hsome
  | some v =>
    rw [hl] at hsome
    simp only [Option.map_some', Option.some.injEq, Prod.mk.injEq] at hsome
    obtain ⟨rfl, rfl⟩ := hsome
    exact hl

/-! ## Claim C9 -/

/-- Claim C9: a negative (order-not-found) sentinel from a pull query
leaves the order's accounting, its hedged quantity and the ledger totals
unchanged: detect_fills_on_cancel is a no-op on the sentinel, the REST
reconciliation sweep skips the id, an order with no entry in the merged
fills dict passes through check_fills_and_hedge untouched, and
record_spot_fill never decreases accounted_qty (a report at or below it is
a no-op). -/
theorem claim_C9 :
    (∀ (st : Ledger) (o : LevelOrder) (restFill : ℚ), restFill < 0 →
      detectFillsOnCancel st o none restFill = (st, o, 0)) ∧
    (∀ (pull : String → ℚ) (ids : List String) (fills : List (String × ℚ)) (oid : String),
      pull oid < 0 →
      alookup (collectRestFills pull ids fills) oid = alookup fills oid) ∧
    (∀ (cfg : StrategyConfig) (st : Ledger) (orders : List LevelOrder)
        (fills : List (String × ℚ)) (attempts : ℕ → HedgeAttempt) (gapDue : Bool)
        (attempts2 : ℕ → HedgeAttempt) (o : LevelOrder), o ∈ orders →
      alookup fills o.order_id = none →
      o ∈ (checkFillsAndHedge cfg st orders fills attempts gapDue attempts2).orders) ∧
    (∀ (st : Ledger) (o : LevelOrder) (cum : ℚ),
      o.accounted_qty ≤ (recordSpotFill st o cum).2.1.accounted_qty ∧
      (cum ≤ o.accounted_qty → recordSpotFill st o cum = (st, o, 0))) := by
  refine ⟨?_, ?_, ?_, ?_⟩
  · intro st o restFill h
    unfold detectFillsOnCancel
    rw [if_neg (not_le.mpr h)]
  · intro pull ids fills oid h
    induction ids generalizing fills with
    | nil => rfl
    | cons id rest ih =>
      have hstep : collectRestFills pull (id :: rest) fills =
          collectRestFills pull rest
            (if 0 ≤ pull id then dictSet fills id (max ((alookup fills id).getD 0) (pull id))
             else fills) := rfl
      rw [hstep, ih]
      by_cases hid : id = oid
      · subst hid
        rw [if_neg (not_le.mpr h)]
      · by_cases hp : 0 ≤ pull id
        · rw [if_pos hp, alookup_dictSet_ne _ _ _ _ hid]
        · rw [if_neg hp]
  · intro cfg st orders fills attempts gapDue attempts2 o ho hnone
    have hkey : o.order_id ∉ fills.map Prod.fst := alookup_eq_none_iff.mp hnone
    have hff : o.order_id ∉ fullyFilled orders fills := fun hmem =>
      hkey (fullyFilled_key _ _ _ hmem)
    have hphase : o ∈ phase1Orders orders fills := by
      refine List.mem_map.mpr ⟨o, ho, ?_⟩
      rw [hnone]
    have hclean : ∀ l : List LevelOrder, o ∈ l → o ∈ cleanupFull l (fullyFilled orders fills) := by
      intro l hl
      refine List.mem_filter.mpr ⟨hl, ?_⟩
      simp [hff]
    unfold checkFillsAndHedge
    by_cases hbr : eps < ((perOrderUnhedged orders fills).map Prod.snd).sum
    · rw [if_pos hbr]
      refine hclean _ ?_
      have hparts : ∀ rem : ℚ,
          alookup (allocParts rem ((sortIdsByLevel (phase1Orders orders fills)
            ((perOrderUnhedged orders fills).map Prod.fst)).filterMap fun oid =>
              (alookup (perOrderUnhedged orders fills) oid).map fun u => (oid, u)))
            o.order_id = none := by
        intro rem
        rw [alookup_eq_none_iff]
        intro hmem
        obtain ⟨pr, hpr, hpr1⟩ := List.mem_map.mp hmem
        obtain ⟨u, r2, hpairs, -, -⟩ := allocParts_mem _ pr.1 pr.2 rem
          (by rw [← Prod.mk.eta (p := pr)] at hpr; exact hpr)
        have hunh := pairs_mem (phase1Orders orders fills) (perOrderUnhedged orders fills)
          _ pr.1 u hpairs
        obtain ⟨o2, cum, -, hfmem, -, -⟩ := perOrderUnhedged_mem orders fills pr.1 u
          (alookup_mem hunh)
        exact hkey (hpr1 ▸ List.mem_map.mpr ⟨(pr.1, cum), hfmem, rfl⟩)
      refine List.mem_map.mpr ⟨o, hphase, ?_⟩
      rw [hparts _]
    · rw [if_neg hbr]
      exact hclean _ hphase
  · intro st o cum
    constructor
    · unfold recordSpotFill
      by_cases hc : cum - o.accounted_qty ≤ eps
      · rw [if_pos hc]
      · rw [if_neg hc]
        dsimp only
        linarith [not_le.mp hc, eps_pos]
    · intro hle
      unfold recordSpotFill
      rw [if_pos (by linarith [eps_pos])]

/-- Witness for claim C9 on a concrete order and a sentinel-returning
adapter. -/
theorem claim_C9_witness :
    (-1 : ℚ) < 0 ∧
    detectFillsOnCancel ⟨0, 0, 0, 0, 0, 0⟩ ⟨1, "a", 100, 2, 1, 1⟩ none (-1) =
      (⟨0, 0, 0, 0, 0, 0⟩, ⟨1, "a", 100, 2, 1, 1⟩, 0) ∧
    alookup (collectRestFills (fun _ => -1) ["a"] [] ) "a" = alookup [] "a" ∧
    (⟨1, "a", 100, 2, 1, 1⟩ : LevelOrder) ∈
      (checkFillsAndHedge ⟨1 / 100, 1, 1 / 100, 3 / 10, 1 / 100, 1, 1 / 2, 3⟩
        ⟨0, 0, 0, 0, 0, 0⟩ [⟨1, "a", 100, 2, 1, 1⟩] [] (fun _ => HedgeAttempt.failure) false
        (fun _ => HedgeAttempt.failure)).orders ∧
    ((1 : ℚ) ≤ 1 ∧ recordSpotFill ⟨0, 0, 0, 0, 0, 0⟩ ⟨1, "a", 100, 2, 1, 1⟩ 1 =
      (⟨0, 0, 0, 0, 0, 0⟩, ⟨1, "a", 100, 2, 1, 1⟩, 0)) := by
  refine ⟨by norm_num, ?_, ?_, ?_, le_refl 1, ?_⟩
  · exact claim_C9.1 ⟨0, 0, 0, 0, 0, 0⟩ ⟨1, "a", 100, 2, 1, 1⟩ (-1) (by norm_num)
  · exact claim_C9.2.1 (fun _ => -1) ["a"] [] "a" (by norm_num)
  · exact claim_C9.2.2.1 ⟨1 / 100, 1, 1 / 100, 3 / 10, 1 / 100, 1, 1 / 2, 3⟩
      ⟨0, 0, 0, 0, 0, 0⟩ [⟨1, "a", 100, 2, 1, 1⟩] [] (fun _ => HedgeAttempt.failure) false
      (fun _ => HedgeAttempt.failure) ⟨1, "a", 100, 2, 1, 1⟩ (by simp) rfl
  · exact (claim_C9.2.2.2 ⟨0, 0, 0, 0, 0, 0⟩ ⟨1, "a", 100, 2, 1, 1⟩ 1).2 (le_refl 1)

/-! ## Claim C2 -/

/-- The per-order invariant exactly as the spec states it. -/
def OrderInv (o : LevelOrder) : Prop :=
  0 ≤ o.hedged_qty ∧ o.hedged_qty ≤ o.accounted_qty ∧ o.accounted_qty ≤ o.qty

/-- The invariant the code actually preserves: hedged_qty can overshoot
accounted_qty by at most the eps tolerance, because detect_fills_on_cancel
and the hedge allocation trust a reported cumulative fill that
record_spot_fill ignored as a below-eps increment. -/
def OrderInvEps (o : LevelOrder) : Prop :=
  0 ≤ o.hedged_qty ∧ o.hedged_qty ≤ o.accounted_qty + eps ∧
  0 ≤ o.accounted_qty ∧ o.accounted_qty ≤ o.qty

theorem accountUpd_fields (o : LevelOrder) (cum : ℚ) :
    (accountUpd o cum).hedged_qty = o.hedged_qty ∧
    (accountUpd o cum).order_id = o.order_id ∧
    (accountUpd o cum).qty = o.qty ∧
    o.accounted_qty ≤ (accountUpd o cum).accounted_qty ∧
    cum ≤ (accountUpd o cum).accounted_qty + eps := by
  unfold accountUpd
  by_cases hc : cum - o.accounted_qty ≤ eps
  · rw [if_pos hc]
    exact ⟨rfl, rfl, rfl, le_refl _, by linarith⟩
  · rw [if_neg hc]
    refine ⟨rfl, rfl, rfl, ?_, ?_⟩
    · dsimp only
      linarith [not_le.mp hc, eps_pos]
    · dsimp only
      linarith [eps_pos]

theorem accountUpd_inv (o : LevelOrder) (cum : ℚ) (hinv : OrderInvEps o)
    (hq : cum ≤ o.qty) : OrderInvEps (accountUpd o cum) := by
  unfold OrderInvEps accountUpd at *
  by_cases hc : cum - o.accounted_qty ≤ eps
  · rw [if_pos hc]
    exact hinv
  · rw [if_neg hc]
    dsimp only
    have hlt := not_le.mp hc
    exact ⟨hinv.1, by linarith [hinv.2.1, eps_pos], by linarith [hinv.2.2.1, eps_pos], hq⟩

theorem hedgeMark_inv (o : LevelOrder) (f : ℚ) (hinv : OrderInvEps o) (hq : f ≤ o.qty)
    (hacc : f ≤ o.accounted_qty + eps) : OrderInvEps ((hedgeMark o f).1) := by
  unfold OrderInvEps hedgeMark at *
  by_cases hc : eps < f - o.hedged_qty
  · rw [if_pos hc]
    dsimp only
    have he : o.hedged_qty + (f - o.hedged_qty) = f := by ring
    rw [he]
    exact ⟨by linarith [hinv.1, eps_pos], hacc, hinv.2.2.1, hinv.2.2.2⟩
  · rw [if_neg hc]
    exact hinv

theorem recordSpotFill_order (st : Ledger) (o : LevelOrder) (cum : ℚ) :
    (recordSpotFill st o cum).2.1 = accountUpd o cum := by
  unfold recordSpotFill accountUpd
  by_cases hc : cum - o.accounted_qty ≤ eps
  · rw [if_pos hc, if_pos hc]
  · rw [if_neg hc, if_neg hc]

theorem cleanupFull_subset (l : List LevelOrder) (ff : List String) (o : LevelOrder)
    (h : o ∈ cleanupFull l ff) : o ∈ l := by
  unfold cleanupFull at h
  exact List.mem_of_mem_filter h

theorem detect_inv (st : Ledger) (o : LevelOrder) (wsFill : Option ℚ) (restFill : ℚ)
    (hinv : OrderInvEps o) (hws : ∀ f, wsFill = some f → f ≤ o.qty)
    (hrest : 0 ≤ restFill → restFill ≤ o.qty) :
    OrderInvEps ((detectFillsOnCancel st o wsFill restFill).2.1) := by
  unfold detectFillsOnCancel
  cases wsFill with
  | some f =>
    dsimp only
    rw [recordSpotFill_order]
    have hf := hws f rfl
    refine hedgeMark_inv _ _ (accountUpd_inv o f hinv hf) ?_ ?_
    · rw [(accountUpd_fields o f).2.2.1]
      exact hf
    · exact (accountUpd_fields o f).2.2.2.2
  | none =>
    by_cases hr : 0 ≤ restFill
    · rw [if_pos hr]
      dsimp only
      rw [recordSpotFill_order]
      refine hedgeMark_inv _ _ (accountUpd_inv o restFill hinv (hrest hr)) ?_ ?_
      · rw [(accountUpd_fields o restFill).2.2.1]
        exact hrest hr
      · exact (accountUpd_fields o restFill).2.2.2.2
    · rw [if_neg hr]
      exact hinv

theorem applyAlloc_inv (l : List LevelOrder) (parts : List (String × ℚ))
    (hl : ∀ o ∈ l, OrderInvEps o)
    (hbound : ∀ o ∈ l, ∀ part, alookup parts o.order_id = some part →
      0 ≤ part ∧ o.hedged_qty + part ≤ o.accounted_qty + eps) :
    ∀ o1 ∈ applyAlloc l parts, OrderInvEps o1 := by
  intro o1 ho1
  unfold applyAlloc at ho1
  obtain ⟨o, ho, rfl⟩ := List.mem_map.mp ho1
  cases hp : alookup parts o.order_id with
  | none =>
    simp only [hp]
    exact hl o ho
  | some part =>
    simp only [hp]
    obtain ⟨hp0, hple⟩ := hbound o ho part hp
    have hinv := hl o ho
    unfold OrderInvEps at hinv ⊢
    dsimp only
    exact ⟨by linarith [hinv.1], hple, hinv.2.2.1, hinv.2.2.2⟩

theorem checkFillsAndHedge_inv (cfg : StrategyConfig) (st : Ledger)
    (orders : List LevelOrder) (fills : List (String × ℚ)) (attempts : ℕ → HedgeAttempt)
    (gapDue : Bool) (attempts2 : ℕ → HedgeAttempt)
    (hndO : (orders.map LevelOrder.order_id).Nodup)
    (hndF : (fills.map Prod.fst).Nodup)
    (hq : ∀ p ∈ fills, ∀ o ∈ orders, o.order_id = p.1 → p.2 ≤ o.qty)
    (hinv : ∀ o ∈ orders, OrderInvEps o) :
    ∀ o1 ∈ (checkFillsAndHedge cfg st orders fills attempts gapDue attempts2).orders,
      OrderInvEps o1 := by
  have hphase2 : ∀ o2 ∈ phase1Orders orders fills, OrderInvEps o2 := by
    intro o2 ho2
    obtain ⟨o, ho, rfl⟩ := List.mem_map.mp ho2
    cases hl : alookup fills o.order_id with
    | none =>
      simp only [hl]
      exact hinv o ho
    | some cum =>
      simp only [hl]
      exact accountUpd_inv o cum (hinv o ho)
        (hq (o.order_id, cum) (alookup_mem hl) o ho rfl)
  have hbound : ∀ o2 ∈ phase1Orders orders fills, ∀ part,
      alookup (allocParts
        (tryHedge cfg (phase1Ledger st orders fills)
          ((List.map Prod.snd (perOrderUnhedged orders fills)).sum) attempts).hedged
        (List.filterMap
          (fun oid => Option.map (fun u => (oid, u))
            (alookup (perOrderUnhedged orders fills) oid))
          (sortIdsByLevel (phase1Orders orders fills)
            (List.map Prod.fst (perOrderUnhedged orders fills))))) o2.order_id =
        some part →
      0 ≤ part ∧ o2.hedged_qty + part ≤ o2.accounted_qty + eps := by
    intro o2 ho2 part hp
    obtain ⟨o, ho, rfl⟩ := List.mem_map.mp ho2
    -- resolve the allocated part back to the unhedged entry of this order
    cases hl : alookup fills o.order_id with
    | none =>
      exfalso
      rw [hl] at hp
      dsimp only at hp
      obtain ⟨u, r2, hpairs, hpart, hr2⟩ :=
        allocParts_mem _ o.order_id part _ (alookup_mem hp)
      have hunh := pairs_mem (phase1Orders orders fills) (perOrderUnhedged orders fills)
        _ o.order_id u hpairs
      obtain ⟨o0, cum0, hfo, hfmem, hu, hupos⟩ :=
        perOrderUnhedged_mem orders fills o.order_id u (alookup_mem hunh)
      exact alookup_eq_none_iff.mp hl (List.mem_map.mpr ⟨(o.order_id, cum0), hfmem, rfl⟩)
    | some cum =>
      rw [hl] at hp
      dsimp only at hp ⊢
      have hA := accountUpd_fields o cum
      rw [hA.2.1] at hp
      obtain ⟨u, r2, hpairs, hpart, hr2⟩ :=
        allocParts_mem _ o.order_id part _ (alookup_mem hp)
      have hunh := pairs_mem (phase1Orders orders fills) (perOrderUnhedged orders fills)
        _ o.order_id u hpairs
      obtain ⟨o0, cum0, hfo, hfmem, hu, hupos⟩ :=
        perOrderUnhedged_mem orders fills o.order_id u (alookup_mem hunh)
      have ho0 : o0 = o := by
        have hself := findOrder_self orders o hndO ho
        rw [hfo] at hself
        exact Option.some.inj hself
      rw [ho0] at hu
      have hcum : cum0 = cum := by
        have hl2 : alookup fills o.order_id = some cum0 :=
          alookup_eq_some_of_mem hndF hfmem
        rw [hl] at hl2
        exact (Option.some.inj hl2).symm
      rw [hcum] at hu
      have hple : part ≤ u := hpart ▸ min_le_left u r2
      have hppos : 0 ≤ part := by
        rw [hpart]
        exact le_min (by linarith [hupos, eps_pos]) (by linarith [hr2, eps_pos])
      refine ⟨hppos, ?_⟩
      rw [hA.1]
      have hub : o.hedged_qty + part ≤ cum := by
        rw [hu] at hple
        linarith
      calc o.hedged_qty + part ≤ cum := hub
        _ ≤ (accountUpd o cum).accounted_qty + eps := hA.2.2.2.2
  have hres : (checkFillsAndHedge cfg st orders fills attempts gapDue attempts2).orders =
      (if eps < ((perOrderUnhedged orders fills).map Prod.snd).sum then
        cleanupFull
          (applyAlloc (phase1Orders orders fills)
            (allocParts
              (tryHedge cfg (phase1Ledger st orders fills)
                ((List.map Prod.snd (perOrderUnhedged orders fills)).sum) attempts).hedged
              (List.filterMap
                (fun oid => Option.map (fun u => (oid, u))
                  (alookup (perOrderUnhedged orders fills) oid))
                (sortIdsByLevel (phase1Orders orders fills)
                  (List.map Prod.fst (perOrderUnhedged orders fills))))))
          (fullyFilled orders fills)
      else cleanupFull (phase1Orders orders fills) (fullyFilled orders fills)) := by
    unfold checkFillsAndHedge
    by_cases hbr : eps < ((perOrderUnhedged orders fills).map Prod.snd).sum
    · rw [if_pos hbr, if_pos hbr]
    · rw [if_neg hbr, if_neg hbr]
  intro o1 ho1
  rw [hres] at ho1
  by_cases hbr : eps < ((perOrderUnhedged orders fills).map Prod.snd).sum
  · rw [if_pos hbr] at ho1
    exact applyAlloc_inv _ _ hphase2 hbound o1 (cleanupFull_subset _ _ _ ho1)
  · rw [if_neg hbr] at ho1
    exact hphase2 _ (cleanupFull_subset _ _ _ ho1)

/-- Counterexample to claim C2: an order with qty 1, accounted_qty 1/2 and
hedged_qty 2/5 satisfies the invariant and every reported cumulative fill
(1/2 + 1e-12) is at most qty, yet after detect_fills_on_cancel the order
has hedged_qty = 1/2 + 1e-12 above accounted_qty = 1/2, because
record_spot_fill ignored the below-eps increment while the hedge update
trusted it. -/
theorem claim_C2_counterexample :
    OrderInv ⟨1, "a", 100, 1, 1 / 2, 2 / 5⟩ ∧
    (1 / 2 + eps : ℚ) ≤ (1 : ℚ) ∧
    ¬OrderInv (detectFillsOnCancel ⟨0, 0, 0, 0, 0, 0⟩ ⟨1, "a", 100, 1, 1 / 2, 2 / 5⟩
      (some (1 / 2 + eps)) (-1)).2.1 := by
  refine ⟨⟨by norm_num, by norm_num, by norm_num⟩, by norm_num [eps], ?_⟩
  have hres : (detectFillsOnCancel ⟨0, 0, 0, 0, 0, 0⟩ ⟨1, "a", 100, 1, 1 / 2, 2 / 5⟩
      (some (1 / 2 + eps)) (-1)).2.1 =
      ⟨1, "a", 100, 1, 1 / 2, 2 / 5 + (1 / 2 + eps - 2 / 5)⟩ := by
    unfold detectFillsOnCancel recordSpotFill hedgeMark
    dsimp only
    rw [if_pos (by norm_num [eps] : (1 / 2 + eps : ℚ) - 1 / 2 ≤ eps)]
    dsimp only
    rw [if_pos (by norm_num [eps] : eps < (1 / 2 + eps : ℚ) - 2 / 5)]
  rw [hres]
  intro hcon
  have h2 := hcon.2.1
  dsimp only at h2
  norm_num [eps] at h2

/-- Claim C2 (amended): provided every cumulative fill reported for an
order is at most that order's qty, every FillHandler operation
(record_spot_fill, check_fills_and_hedge including its hedge-allocation
step, detect_fills_on_cancel) preserves, for every active order,
0 <= hedged_qty, hedged_qty <= accounted_qty + 1e-12, and
0 <= accounted_qty <= qty: the hedged quantity can exceed the accounted
quantity by at most the float tolerance. -/
theorem claim_C2_amended :
    (∀ (st : Ledger) (o : LevelOrder) (cum : ℚ), OrderInvEps o → cum ≤ o.qty →
      OrderInvEps (recordSpotFill st o cum).2.1) ∧
    (∀ (st : Ledger) (o : LevelOrder) (wsFill : Option ℚ) (restFill : ℚ),
      OrderInvEps o → (∀ f, wsFill = some f → f ≤ o.qty) →
      (0 ≤ restFill → restFill ≤ o.qty) →
      OrderInvEps (detectFillsOnCancel st o wsFill restFill).2.1) ∧
    (∀ (cfg : StrategyConfig) (st : Ledger) (orders : List LevelOrder)
        (fills : List (String × ℚ)) (attempts : ℕ → HedgeAttempt) (gapDue : Bool)
        (attempts2 : ℕ → HedgeAttempt),
      (orders.map LevelOrder.order_id).Nodup → (fills.map Prod.fst).Nodup →
      (∀ p ∈ fills, ∀ o ∈ orders, o.order_id = p.1 → p.2 ≤ o.qty) →
      (∀ o ∈ orders, OrderInvEps o) →
      ∀ o1 ∈ (checkFillsAndHedge cfg st orders fills attempts gapDue attempts2).orders,
        OrderInvEps o1) := by
  refine ⟨?_, ?_, ?_⟩
  · intro st o cum hinv hq
    rw [recordSpotFill_order]
    exact accountUpd_inv o cum hinv hq
  · intro st o wsFill restFill hinv hws hrest
    exact detect_inv st o wsFill restFill hinv hws hrest
  · intro cfg st orders fills attempts gapDue attempts2 hndO hndF hq hinv
    exact checkFillsAndHedge_inv cfg st orders fills attempts gapDue attempts2 hndO hndF
      hq hinv

/-- Witness for claim C2 (amended) on a one-order book with no fills. -/
theorem claim_C2_amended_witness :
    OrderInvEps ⟨1, "a", 100, 2, 1, 1⟩ ∧ (1 : ℚ) ≤ 2 ∧
    OrderInvEps (recordSpotFill ⟨0, 0, 0, 0, 0, 0⟩ ⟨1, "a", 100, 2, 1, 1⟩ 1).2.1 ∧
    OrderInvEps (detectFillsOnCancel ⟨0, 0, 0, 0, 0, 0⟩ ⟨1, "a", 100, 2, 1, 1⟩
      none (-1)).2.1 ∧
    OrderInvEps (⟨1, "a", 100, 2, 1, 1⟩ : LevelOrder) := by
  have hoinv : OrderInvEps ⟨1, "a", 100, 2, 1, 1⟩ := by
    refine ⟨by norm_num, ?_, by norm_num, by norm_num⟩
    dsimp only
    norm_num [eps]
  have horders : (checkFillsAndHedge ⟨1 / 100, 1, 1 / 100, 3 / 10, 1 / 100, 1, 1 / 2, 3⟩
      ⟨0, 0, 0, 0, 0, 0⟩ [⟨1, "a", 100, 2, 1, 1⟩] [] (fun _ => HedgeAttempt.failure) false
      (fun _ => HedgeAttempt.failure)).orders = [⟨1, "a", 100, 2, 1, 1⟩] := by
    unfold checkFillsAndHedge
    rw [if_neg (by norm_num [perOrderUnhedged, eps])]
    dsimp only
    norm_num [phase1Orders, alookup, cleanupFull, fullyFilled, List.filter]
  refine ⟨hoinv, by norm_num, ?_, ?_, ?_⟩
  · exact claim_C2_amended.1 ⟨0, 0, 0, 0, 0, 0⟩ ⟨1, "a", 100, 2, 1, 1⟩ 1 hoinv (by norm_num)
  · exact claim_C2_amended.2.1 ⟨0, 0, 0, 0, 0, 0⟩ ⟨1, "a", 100, 2, 1, 1⟩ none (-1) hoinv
      (by intro f hf; cases hf) (by intro hr; norm_num at hr)
  · exact claim_C2_amended.2.2 ⟨1 / 100, 1, 1 / 100, 3 / 10, 1 / 100, 1, 1 / 2, 3⟩
      ⟨0, 0, 0, 0, 0, 0⟩ [⟨1, "a", 100, 2, 1, 1⟩] [] (fun _ => HedgeAttempt.failure) false
      (fun _ => HedgeAttempt.failure) (by simp) (by simp)
      (by intro p hp; simp at hp) (by intro o ho; simp at ho; rw [ho]; exact hoinv)
      ⟨1, "a", 100, 2, 1, 1⟩ (by rw [horders]; simp)

end ArbBot
